import Mathlib

/-!
# Verification of the Boundary Materialization and Reconciliation Engine

A shallow embedding, in Lean 4, of the diffing/matching core of the
`activity-info-runner` repository:

* `scripts/changeset.py` — the generic two-phase resource matcher
  (`match_resources`), the hierarchical differ (`generate_changeset`,
  `generate_form_changes`, `generate_field_changes`,
  `generate_record_changes`) and the record value equality
  (`_are_values_equal`);
* `scripts/models.py` — the schema snapshot model and the `Changeset`
  aggregate;
* `scripts/boundaries.py` — boundary materialization
  (`materialize_boundary`, `materialize_form_boundaries`,
  `materialize_field_and_record_boundaries`, `match_identifier`).

Python `dict`s are modelled as association lists with insert-or-replace
semantics (replacement keeps the key's position, as in CPython), record
values as a tagged scalar union with Python's `==` semantics on JSON
scalars, remote calls as oracle functions returning `Except`, and the
regular-expression search `re.search` as an abstract boolean oracle.
-/

set_option maxRecDepth 4096

namespace AIRunner

/-! ## Python `dict` as an association list (insert-or-replace) -/

/-- A Python `dict` with `String` keys: an association list whose insert
replaces the value in place when the key is present (CPython keeps the
key's original position) and appends a fresh key at the end. -/
abbrev Dict (α : Type) := List (String × α)

/-- `d[k] = v` on a Python dict: replace in place or append. -/
def dictInsert {α : Type} (k : String) (v : α) : Dict α → Dict α
  | [] => [(k, v)]
  | (k', v') :: rest =>
    if k' = k then (k, v) :: rest else (k', v') :: dictInsert k v rest

/-- `d.get(k)`: the value at key `k`, if present. -/
def dictGet {α : Type} (k : String) : Dict α → Option α
  | [] => none
  | (k', v') :: rest => if k' = k then some v' else dictGet k rest

/-- `d.values()` in key order. -/
def dictValues {α : Type} (d : Dict α) : List α := d.map Prod.snd

/-- `d.keys()` in key order. -/
def dictKeys {α : Type} (d : Dict α) : List String := d.map Prod.fst

/-! ## Positions: `enumerate(lst)` -/

/-- `enumerate` starting at `n`. -/
def idxFrom {α : Type} (n : Nat) : List α → List (Nat × α)
  | [] => []
  | x :: xs => (n, x) :: idxFrom (n + 1) xs

/-- `list(enumerate(lst))`: each element paired with its position. -/
def indexed {α : Type} (l : List α) : List (Nat × α) := idxFrom 0 l

/-! ## The fallback-key multimap of phase 2 -/

/-- The phase-2 lookup `desired_by_fallback`: key to list of remaining
candidates. -/
abbrev FbDict (α : Type) := List (String × List α)

/-- `d.setdefault(k, []).append(v)`. -/
def fbInsert {α : Type} (k : String) (v : α) : FbDict α → FbDict α
  | [] => [(k, [v])]
  | (k', vs) :: rest =>
    if k' = k then (k', vs ++ [v]) :: rest else (k', vs) :: fbInsert k v rest

/-- `d.get(k, [])`. -/
def fbGet {α : Type} (k : String) : FbDict α → List α
  | [] => []
  | (k', vs) :: rest => if k' = k then vs else fbGet k rest

/-- Empty the candidate list stored at key `k` (the effect of
`d[key].remove(idx)` when `idx` is the single remaining candidate). -/
def fbZero {α : Type} (k : String) : FbDict α → FbDict α
  | [] => []
  | (k', vs) :: rest =>
    if k' = k then (k', []) :: rest else (k', vs) :: fbZero k rest

/-- All candidates stored in the multimap, in key order. -/
def fbFlat {α : Type} (d : FbDict α) : List α := (d.map Prod.snd).flatten

/-! ## `match_resources` (scripts/changeset.py, lines 277-369) -/

/-- Phase 1 index construction: `current_by_id` / `desired_by_id`.
Entries whose identifier is the empty string are skipped
(`if ident:`). -/
def buildById {T : Type} (idg : T → String) : List (Nat × T) → Dict (Nat × T) → Dict (Nat × T)
  | [], d => d
  | e :: rest, d =>
    buildById idg rest (if idg e.2 = "" then d else dictInsert (idg e.2) e d)

/-- Phase 1: for every identifier present in both indexes, pair the
corresponding (position, element) entries, in `current_by_id` key
order. -/
def phase1Pairs {T : Type} (current desired : List T) (idg : T → String) :
    List ((Nat × T) × (Nat × T)) :=
  let curById := buildById idg (indexed current) []
  let desById := buildById idg (indexed desired) []
  curById.filterMap (fun kv => (dictGet kv.1 desById).map (fun e => (kv.2, e)))

/-- Phase 2 multimap construction over the unmatched desired entries. -/
def buildFb {T : Type} (fbk : T → String) : List (Nat × T) → FbDict (Nat × T) → FbDict (Nat × T)
  | [], fb => fb
  | e :: rest, fb => buildFb fbk rest (fbInsert (fbk e.2) e fb)

/-- Phase 2 loop over the unmatched current entries: a unique candidate
with the same fallback key is consumed and paired; two or more
candidates produce a warning and no pair; zero candidates do nothing. -/
def phase2 {T : Type} (fbk : T → String) :
    List (Nat × T) → FbDict (Nat × T) → List ((Nat × T) × (Nat × T)) × List String
  | [], _ => ([], [])
  | e :: rest, fb =>
    match fbGet (fbk e.2) fb with
    | [d] =>
      let r := phase2 fbk rest (fbZero (fbk e.2) fb)
      ((e, d) :: r.1, r.2)
    | [] => phase2 fbk rest fb
    | _ :: _ :: _ =>
      let r := phase2 fbk rest fb
      (r.1, ("Ambiguous fallback match for key \x27" ++ fbk e.2 ++ "\x27.") :: r.2)

/-- The result tuple of `match_resources`. -/
structure MatchResult (T : Type) where
  matched : List (T × T)
  deletes : List T
  creates : List T
  warnings : List String
  deriving DecidableEq, Repr

/-- `match_resources(current, desired, id_getter, fallback_key)`: the
two-phase matcher of scripts/changeset.py. Phase 1 matches by non-empty
identifier; phase 2 matches the remaining entries by fallback key when
the candidate with that key is unique; the final deletes/creates are
recomputed from the consumed position sets. -/
def match_resources {T : Type} (current desired : List T)
    (id_getter fallback_key : T → String) : MatchResult T :=
  let cur := indexed current
  let des := indexed desired
  let p1 := phase1Pairs current desired id_getter
  let mc1 := p1.map (fun pr => pr.1.1)
  let md1 := p1.map (fun pr => pr.2.1)
  let unmatchedCur := cur.filter (fun e => decide (¬ e.1 ∈ mc1))
  let unmatchedDes := des.filter (fun e => decide (¬ e.1 ∈ md1))
  let fb0 := buildFb fallback_key unmatchedDes []
  let pw := phase2 fallback_key unmatchedCur fb0
  let pairs := p1 ++ pw.1
  let mcAll := pairs.map (fun pr => pr.1.1)
  let mdAll := pairs.map (fun pr => pr.2.1)
  { matched := pairs.map (fun pr => (pr.1.2, pr.2.2))
    deletes := (cur.filter (fun e => decide (¬ e.1 ∈ mcAll))).map Prod.snd
    creates := (des.filter (fun e => decide (¬ e.1 ∈ mdAll))).map Prod.snd
    warnings := pw.2 }

/-- A plain test resource carrying an identifier and a fallback key, used
to exercise the generic matcher on concrete inputs. -/
structure Elem where
  ident : String
  key : String
  deriving DecidableEq, Repr

/-! ## Record values (scripts/changeset.py records are `Dict[str, Any]`) -/

/-- A dynamically-typed record scalar: string, (integral) number, boolean
or `None`. -/
inductive Value where
  | vStr (s : String)
  | vNum (n : Int)
  | vBool (b : Bool)
  | vNull
  deriving DecidableEq, Repr

/-- Python `==` on record scalars: numbers compare by value, booleans
equal the numbers 0/1 (`False == 0`, `True == 1`), `None` equals only
`None`, and all other cross-type comparisons are unequal. -/
def pyEq : Value → Value → Bool
  | .vStr a, .vStr b => a = b
  | .vNum a, .vNum b => a = b
  | .vBool a, .vBool b => a = b
  | .vNum a, .vBool b => a = (if b then 1 else 0)
  | .vBool a, .vNum b => (if a then (1 : Int) else 0) = b
  | .vNull, .vNull => true
  | _, _ => false

/-- The `None`-to-empty-string normalization of `_are_values_equal`. -/
def normNull : Value → Value
  | .vNull => .vStr ""
  | v => v

/-- `_are_values_equal` (scripts/changeset.py, lines 372-386): ordinary
equality, or equality after mapping `None` to the empty string. -/
def are_values_equal (val1 val2 : Value) : Bool :=
  pyEq val1 val2 || pyEq (normNull val1) (normNull val2)

/-- A record: a field-code-to-value map (a Python dict). -/
abbrev Record := List (String × Value)

/-- Association-list lookup, first match (Python dict keys are unique). -/
def lookupVal (r : Record) (code : String) : Option Value := dictGet code r

/-- `record.get(code)` as used in value comparison: an absent key yields
Python `None`, which the embedding conflates with the stored `None`
(exactly as `_are_values_equal` receives it). -/
def recordGet (r : Record) (code : String) : Value :=
  match lookupVal r code with
  | some v => v
  | none => .vNull

/-- The record identifier getter `lambda r: r.get("@id")` composed with
the matcher's truthiness guard: a missing or non-string `@id` behaves as
"unset" (empty string). -/
def recordId (r : Record) : String :=
  match lookupVal r "@id" with
  | some (.vStr s) => s
  | _ => ""

/-- `r.get("@id")` where the caller stores the raw optional value. -/
def recordIdOpt (r : Record) : Option String :=
  match lookupVal r "@id" with
  | some (.vStr s) => some s
  | _ => none

/-! ## Schema model (scripts/dtos.py and scripts/models.py) -/

/-- `FieldTypeParametersUpdateDTO` (scripts/dtos.py): type-specific field
parameters. `range` is a list of string-to-string dicts; `items` a list
of (id, label) pairs. -/
structure FieldTypeParameters where
  units : Option String
  input_mask : Option String
  cardinality : Option String
  range : Option (List (List (String × String)))
  form_id : Option String
  items : Option (List (String × String))
  formula : Option String
  prefix_formula : Option String
  deriving DecidableEq, Repr

/-- `SchemaFieldDTO` (scripts/dtos.py): a form field definition. -/
structure SchemaFieldDTO where
  id : Option String
  code : Option String
  label : String
  relevance_condition : Option String
  validation_condition : Option String
  data_entry_visible : Bool
  table_visible : Bool
  required : Bool
  key : Option Bool
  type : String
  type_parameters : Option FieldTypeParameters
  deriving DecidableEq, Repr

/-- The field identifier getter `lambda f: f.id` composed with the
truthiness guard (`None` and `""` both mean "unset"). -/
def fieldId (f : SchemaFieldDTO) : String := f.id.getD ""

/-- The field fallback key `lambda f: f.code or f.label`: the code when
it is set and non-empty, else the label. -/
def fieldFallback (f : SchemaFieldDTO) : String :=
  match f.code with
  | some c => if c = "" then f.label else c
  | none => f.label

/-- `FormSchema` (scripts/models.py). -/
structure FormSchema where
  id : String
  databaseId : String
  label : String
  fields : List SchemaFieldDTO
  records : List Record
  deriving DecidableEq, Repr

/-- `DatabaseSchema` (scripts/models.py). -/
structure DatabaseSchema where
  databaseId : String
  label : String
  description : String
  forms : List FormSchema
  deriving DecidableEq, Repr

/-- `SchemaSnapshot` (scripts/models.py). -/
structure SchemaSnapshot where
  databases : List DatabaseSchema
  deriving DecidableEq, Repr

/-! ## Actions and `Changeset` (scripts/models.py, lines 232-389) -/

/-- Record-level actions (`RecordDeleteAction` / `RecordCreateAction` /
`RecordUpdateAction`). `record_id` carries the raw `rec.get("@id")`
optional value the code passes. -/
inductive RecordAction where
  | delete (origin form_id : String) (record_id : Option String)
      (parent_record_id : Option String)
  | create (origin form_id : String) (record_id : Option String)
      (parent_record_id : Option String) (fields : Record)
  | update (origin form_id : String) (record_id : Option String)
      (parent_record_id : Option String) (field_code : String)
      (field_value old_field_value : Value)
  deriving DecidableEq, Repr

/-- Whether a record action is an update for the given field code. -/
def RecordAction.isUpdateFor (code : String) : RecordAction → Bool
  | .update _ _ _ _ c _ _ => c = code
  | _ => false

/-- Field-level actions. The create carries the full desired field
payload (`**field.model_dump(exclude={'id'})`). -/
inductive FieldAction where
  | delete (origin database_id form_id : String) (field_id : Option String)
  | create (origin database_id form_id : String) (payload : SchemaFieldDTO)
  | update (origin database_id form_id : String) (field_id : Option String)
      (old_field new_field : SchemaFieldDTO)
  deriving DecidableEq, Repr

/-- Form-level actions. -/
inductive FormAction where
  | delete (origin form_id database_id : String)
  | create (origin form_id label database_id : String)
  | update (origin form_id database_id old_label new_label : String)
  deriving DecidableEq, Repr

/-- Database-level actions. -/
inductive DatabaseAction where
  | delete (origin database_id : String)
  | create (origin database_id label description : String)
  | update (origin database_id : String) (old_database new_database : DatabaseSchema)
  deriving DecidableEq, Repr

/-- `Changeset` (scripts/models.py, lines 345-389): four ordered action
lists. The class has exactly these four list fields; warnings travel
beside it as a separate `List[str]`. -/
structure Changeset where
  record_actions : List RecordAction
  field_actions : List FieldAction
  form_actions : List FormAction
  database_actions : List DatabaseAction
  deriving DecidableEq, Repr

/-- `Changeset.__add__`: concatenate the four action lists pairwise. -/
def Changeset.add (a b : Changeset) : Changeset :=
  { record_actions := a.record_actions ++ b.record_actions
    field_actions := a.field_actions ++ b.field_actions
    form_actions := a.form_actions ++ b.form_actions
    database_actions := a.database_actions ++ b.database_actions }

instance : Add Changeset := ⟨Changeset.add⟩

/-- `Changeset.__len__`: the total action count over the four lists. -/
def Changeset.len (c : Changeset) : Nat :=
  c.record_actions.length + c.field_actions.length + c.form_actions.length +
    c.database_actions.length

/-- The spec's description of the changeset data model, written from the
spec's words for comparison with the source `Changeset`: "an ordered
aggregate of all four action lists **plus collected warnings**". -/
structure ChangesetSpecAggregate where
  record_actions : List RecordAction
  field_actions : List FieldAction
  form_actions : List FormAction
  database_actions : List DatabaseAction
  warnings : List String
  deriving DecidableEq, Repr

/-- The source `Changeset` obtainable from the spec's aggregate: the four
action lists (the source class has no warnings field to receive the
fifth component). -/
def ChangesetSpecAggregate.toChangeset (a : ChangesetSpecAggregate) : Changeset :=
  { record_actions := a.record_actions
    field_actions := a.field_actions
    form_actions := a.form_actions
    database_actions := a.database_actions }

/-! ## The hierarchical differ (scripts/changeset.py, lines 26-265) -/

/-- The `origin` tag of this diff step. -/
def ORIGIN : String := "generate_changeset"

/-- The inner loop of `generate_record_changes` over a matched record
pair: one `RecordUpdateAction` per field code of the desired record whose
value differs (per `_are_values_equal`) from the current record's. -/
def recordPairUpdates (form_id : String) (current_r desired_r : Record) :
    List RecordAction :=
  desired_r.filterMap (fun cv =>
    if are_values_equal (recordGet current_r cv.1) cv.2 then none
    else some (.update ORIGIN form_id (recordIdOpt current_r) none cv.1 cv.2
      (recordGet current_r cv.1)))

/-- `generate_record_changes` (scripts/changeset.py, lines 207-265):
record-level diff for one form. Records match by `@id` with the constant
empty fallback key. -/
def generate_record_changes (form_id : String)
    (current_records desired_records : List Record) :
    List RecordAction × List String :=
  let m := match_resources current_records desired_records recordId (fun _ => "")
  let deletes := m.deletes.map (fun rec =>
    RecordAction.delete ORIGIN form_id (recordIdOpt rec) none)
  let creates := m.creates.map (fun rec =>
    RecordAction.create ORIGIN form_id (some "") none rec)
  let updates := (m.matched.map (fun pr => recordPairUpdates form_id pr.1 pr.2)).flatten
  (deletes ++ creates ++ updates, m.warnings)

/-- `generate_field_changes` (scripts/changeset.py, lines 157-204):
field-level diff for one form. Fields match by id with code-or-label
fallback; a matched pair differing in any attribute other than `id`
yields one update. -/
def generate_field_changes (database_id form_id : String)
    (current_fields desired_fields : List SchemaFieldDTO) :
    List FieldAction × List String :=
  let m := match_resources current_fields desired_fields fieldId fieldFallback
  let deletes := m.deletes.map (fun f =>
    FieldAction.delete ORIGIN database_id form_id f.id)
  let creates := m.creates.map (fun f =>
    FieldAction.create "reconciler" database_id form_id f)
  let updates := m.matched.filterMap (fun pr =>
    if { pr.1 with id := none } = ({ pr.2 with id := none } : SchemaFieldDTO) then none
    else some (FieldAction.update "reconciler" database_id form_id pr.1.id pr.1 pr.2))
  (deletes ++ creates ++ updates, m.warnings)

/-- `generate_form_changes` (scripts/changeset.py, lines 102-154):
form-level diff for one database, recursing into fields and records of
every matched pair. -/
def generate_form_changes (database_id : String)
    (current_forms desired_forms : List FormSchema) :
    List FormAction × List FieldAction × List RecordAction × List String :=
  let m := match_resources current_forms desired_forms
    (fun f => f.id) (fun f => f.label)
  let deletes := m.deletes.map (fun form =>
    FormAction.delete ORIGIN form.id form.databaseId)
  let creates := m.creates.map (fun form =>
    FormAction.create ORIGIN "" form.label form.databaseId)
  m.matched.foldl
    (fun acc pr =>
      let fUpd := if pr.1.label = pr.2.label then []
        else [FormAction.update ORIGIN pr.1.id pr.1.databaseId pr.1.label pr.2.label]
      let fd := generate_field_changes database_id pr.1.id pr.1.fields pr.2.fields
      let rc := generate_record_changes pr.1.id pr.1.records pr.2.records
      (acc.1 ++ fUpd, acc.2.1 ++ fd.1, acc.2.2.1 ++ rc.1, acc.2.2.2 ++ fd.2 ++ rc.2))
    (deletes ++ creates, [], [], m.warnings)

/-- `generate_changeset` (scripts/changeset.py, lines 26-99): the
top-level diff. Databases match by id with label fallback; children of
database creates are not processed in the same pass; matched pairs
recurse into forms. Returns the `Changeset` and the warning list. -/
def generate_changeset (materialized_boundary desired_schema : SchemaSnapshot) :
    Changeset × List String :=
  let m := match_resources materialized_boundary.databases desired_schema.databases
    (fun d => d.databaseId) (fun d => d.label)
  let dbDeletes := m.deletes.map (fun db => DatabaseAction.delete ORIGIN db.databaseId)
  let dbCreates := m.creates.map (fun db =>
    DatabaseAction.create ORIGIN "" db.label db.description)
  let r := m.matched.foldl
    (fun acc pr =>
      let dbUpd := if pr.1.label ≠ pr.2.label ∨ pr.1.description ≠ pr.2.description
        then [DatabaseAction.update ORIGIN pr.1.databaseId pr.1 pr.2] else []
      let f := generate_form_changes pr.1.databaseId pr.1.forms pr.2.forms
      (acc.1 ++ dbUpd, acc.2.1 ++ f.1, acc.2.2.1 ++ f.2.1, acc.2.2.2.1 ++ f.2.2.1,
        acc.2.2.2.2 ++ f.2.2.2))
    (dbDeletes ++ dbCreates, [], [], [], m.warnings)
  ({ record_actions := r.2.2.2.1
     field_actions := r.2.2.1
     form_actions := r.2.1
     database_actions := r.1 }, r.2.2.2.2)

/-- Dict-validity and identifier well-formedness of a snapshot: at every
level the identifiers are set and pairwise distinct, and every record's
field map has pairwise-distinct keys (the Python dict invariant). -/
def wellFormed (s : SchemaSnapshot) : Bool :=
  decide ((s.databases.map (fun d => d.databaseId)).Nodup) &&
  s.databases.all (fun db =>
    decide (db.databaseId ≠ "") &&
    decide ((db.forms.map (fun f => f.id)).Nodup) &&
    db.forms.all (fun f =>
      decide (f.id ≠ "") &&
      decide ((f.fields.map fieldId).Nodup) &&
      f.fields.all (fun fd => decide (fieldId fd ≠ "")) &&
      decide ((f.records.map recordId).Nodup) &&
      f.records.all (fun rec =>
        decide (recordId rec ≠ "") && decide ((rec.map Prod.fst).Nodup))))

/-! ## Boundaries (scripts/models.py, lines 9-106) -/

/-- `DatabaseIdentifierType`. -/
inductive DatabaseIdentifierType where
  | id
  | label
  deriving DecidableEq, Repr

/-- `FormIdentifierType`. -/
inductive FormIdentifierType where
  | id
  | label
  deriving DecidableEq, Repr

/-- `FieldIdentifierType`. -/
inductive FieldIdentifierType where
  | id
  | code
  | label
  deriving DecidableEq, Repr

/-- The f-string rendering of a `DatabaseIdentifierType` member. -/
def DatabaseIdentifierType.render : DatabaseIdentifierType → String
  | .id => "DatabaseIdentifierType.id"
  | .label => "DatabaseIdentifierType.label"

/-- The f-string rendering of a `FormIdentifierType` member. -/
def FormIdentifierType.render : FormIdentifierType → String
  | .id => "FormIdentifierType.id"
  | .label => "FormIdentifierType.label"

/-- The f-string rendering of a `FieldIdentifierType` member. -/
def FieldIdentifierType.render : FieldIdentifierType → String
  | .id => "FieldIdentifierType.id"
  | .code => "FieldIdentifierType.code"
  | .label => "FieldIdentifierType.label"

/-- `RecordBoundary = Union[RecordExactBoundary, AllRecordsBoundary]`. -/
inductive RecordBoundary where
  | exact (record_ids : List String)
  | allRecords
  deriving DecidableEq, Repr

/-- `FieldBoundary`. -/
structure FieldBoundary where
  identifier : String
  identifier_type : FieldIdentifierType
  identifier_is_regex : Bool
  deriving DecidableEq, Repr

/-- `FormBoundary`. -/
structure FormBoundary where
  identifier : String
  identifier_type : FormIdentifierType
  identifier_is_regex : Bool
  field_boundaries : List FieldBoundary
  record_boundaries : List RecordBoundary
  deriving DecidableEq, Repr

/-- `DatabaseBoundary`. -/
structure DatabaseBoundary where
  identifier : String
  identifier_type : DatabaseIdentifierType
  identifier_is_regex : Bool
  form_boundaries : List FormBoundary
  deriving DecidableEq, Repr

/-! ## Boundary materialization (scripts/boundaries.py)

Remote calls become oracle functions returning `Except String`; the
concurrent `asyncio.gather(..., return_exceptions=True)` collects the
sub-task outcomes in task order, and the subsequent loop re-raises the
first exception wrapped with the boundary's identifier, which the
embedding mirrors over the oracle results. `re.search` is an abstract
`search : String → String → Bool` oracle (pattern, key). -/

/-- A database descriptor as returned by `get_user_databases`. -/
structure UserDatabase where
  databaseId : String
  label : String
  description : String
  deriving DecidableEq, Repr

/-- A database-tree resource as returned by `get_database_tree`, reduced
to the attributes the materializer reads. -/
inductive TreeResourceType where
  | FORM
  | OTHER
  deriving DecidableEq, Repr

/-- A resource node of the database tree. -/
structure TreeResource where
  id : String
  label : String
  type : TreeResourceType
  deriving DecidableEq, Repr

/-- Build a Python dict from a list, keyed by `key` (duplicate keys keep
the last value, as in a dict comprehension). -/
def buildDict {α : Type} (key : α → String) : List α → Dict α → Dict α
  | [], d => d
  | x :: rest, d => buildDict key rest (dictInsert (key x) x d)

/-- `match_identifier` (scripts/boundaries.py, lines 195-215): values of
`items` whose key matches `identifier` — `re.search` (the `search`
oracle) when `is_regex`, exact string equality otherwise. -/
def match_identifier {α : Type} (search : String → String → Bool)
    (identifier : String) (is_regex : Bool) (items : Dict α) : List α :=
  if is_regex then (items.filter (fun kv => search identifier kv.1)).map Prod.snd
  else (items.filter (fun kv => decide (kv.1 = identifier))).map Prod.snd

/-- The database-selection step of `materialize_boundary` (lines 57-62):
filter the full list by id, or match the label-keyed dict by label. -/
def select_databases (search : String → String → Bool) (b : DatabaseBoundary)
    (existing : List UserDatabase) : List UserDatabase :=
  if b.identifier_type = DatabaseIdentifierType.id then
    existing.filter (fun db => decide (db.databaseId = b.identifier))
  else
    match_identifier search b.identifier b.identifier_is_regex
      (buildDict (fun db => db.label) existing [])

/-- `AllRecordsBoundary` selects every fetched record; `RecordExactBoundary`
filters them to those whose `@id` is in the given id list (an absent or
non-string `@id` is never `in` a list of strings). -/
def selectRecords (records : List Record) : RecordBoundary → List Record
  | .exact ids => records.filter (fun r =>
      match lookupVal r "@id" with
      | some (.vStr s) => ids.contains s
      | _ => false)
  | .allRecords => records

/-- The record-boundary loop of
`materialize_field_and_record_boundaries` (lines 185-189): each
iteration assigns `materialized_record_boundaries` afresh, discarding
the previous iteration's selection. -/
def materializeRecordLoop (records : List Record) (rbs : List RecordBoundary) :
    List Record :=
  rbs.foldl (fun _acc rb => selectRecords records rb) []

/-- The field-boundary loop of
`materialize_field_and_record_boundaries` (lines 170-182): per boundary,
select by id over the elements, or by code/label over the respective
dicts; zero matches appends a warning; selections accumulate. -/
def materializeFieldLoop (search : String → String → Bool) (form_id : String)
    (elements : List SchemaFieldDTO) (fbs : List FieldBoundary) :
    List SchemaFieldDTO × List String :=
  let fields_by_code := buildDict (fun el => el.code.getD "") elements []
  let fields_by_label := buildDict (fun el => el.label) elements []
  fbs.foldl
    (fun acc fb =>
      let matching :=
        if fb.identifier_type = FieldIdentifierType.id then
          elements.filter (fun f => decide (f.id = some fb.identifier))
        else if fb.identifier_type = FieldIdentifierType.code then
          match_identifier search fb.identifier fb.identifier_is_regex fields_by_code
        else
          match_identifier search fb.identifier fb.identifier_is_regex fields_by_label
      let w := if matching.length = 0 then
          ["Field identifier " ++ fb.identifier ++ " of type " ++
            fb.identifier_type.render ++
            " could not be materialized for form id " ++ form_id ++ "."]
        else []
      (acc.1 ++ matching, acc.2 ++ w))
    ([], [])

/-- `materialize_field_and_record_boundaries` (lines 143-192): fetch the
form's schema and records once (the two oracles), then resolve all field
and record boundaries purely. -/
def materialize_field_and_record_boundaries
    (getSchema : String → Except String (List SchemaFieldDTO))
    (getRecords : String → Except String (List Record))
    (search : String → String → Bool) (form_id : String)
    (field_boundaries : List FieldBoundary) (record_boundaries : List RecordBoundary) :
    Except String (List SchemaFieldDTO × List Record × List String) :=
  match getSchema form_id with
  | .error e => .error e
  | .ok elements =>
    match getRecords form_id with
    | .error e => .error e
    | .ok records =>
      let f := materializeFieldLoop search form_id elements field_boundaries
      let noFieldW := if f.1.length = 0 then
          ["No materialized field boundaries were found for form id " ++ form_id ++ "."]
        else []
      let recs := materializeRecordLoop records record_boundaries
      let noRecW := if recs.length = 0 then
          ["No materialized record boundaries were found for form id " ++ form_id ++ "."]
        else []
      .ok (f.1, recs, f.2 ++ noFieldW ++ noRecW)

/-- The result-checking loop after an `asyncio.gather` (boundaries.py
lines 125-137 and 71-83): the first exception in task order is re-raised
wrapped with the boundary's identifier; successful results accumulate in
order together with their warnings. -/
def checkFormResults (database_id : String) (fbIdent : String) :
    List (TreeResource × Except String (List SchemaFieldDTO × List Record × List String)) →
    Except String (List FormSchema × List String)
  | [] => .ok ([], [])
  | (_form, .error e) :: _ =>
    .error ("Failed to materialize form boundary " ++ fbIdent ++ ": " ++ e)
  | (form, .ok (fields, records, w)) :: rest =>
    match checkFormResults database_id fbIdent rest with
    | .error e => .error e
    | .ok (forms, ws) =>
      .ok ({ id := form.id, databaseId := database_id, label := form.label,
             fields := fields, records := records } :: forms, w ++ ws)

/-- The per-form-boundary body of `materialize_form_boundaries`: select
matching forms from the label-keyed dict, launch the field/record
resolution for each, and check the gathered results. -/
def processFormBoundary
    (getSchema : String → Except String (List SchemaFieldDTO))
    (getRecords : String → Except String (List Record))
    (search : String → String → Bool) (database_id : String)
    (forms_dict : Dict TreeResource) (fb : FormBoundary) :
    Except String (List FormSchema × List String) :=
  let matching :=
    if fb.identifier_type = FormIdentifierType.id then
      (dictValues forms_dict).filter (fun form => decide (form.id = fb.identifier))
    else
      match_identifier search fb.identifier fb.identifier_is_regex forms_dict
  let zeroW := if matching.length = 0 then
      ["Form identifier " ++ fb.identifier ++ " of type " ++
        fb.identifier_type.render ++ " could not be materialized for database id " ++
        database_id ++ "."]
    else []
  let results := matching.map (fun form =>
    (form, materialize_field_and_record_boundaries getSchema getRecords search form.id
      fb.field_boundaries fb.record_boundaries))
  match checkFormResults database_id fb.identifier results with
  | .error e => .error e
  | .ok (forms, ws) => .ok (forms, zeroW ++ ws)

/-- The form-boundary loop of `materialize_form_boundaries`. -/
def formBoundaryLoop
    (getSchema : String → Except String (List SchemaFieldDTO))
    (getRecords : String → Except String (List Record))
    (search : String → String → Bool) (database_id : String)
    (forms_dict : Dict TreeResource) :
    List FormBoundary → Except String (List FormSchema × List String)
  | [] => .ok ([], [])
  | fb :: rest =>
    match processFormBoundary getSchema getRecords search database_id forms_dict fb with
    | .error e => .error e
    | .ok (forms, ws) =>
      match formBoundaryLoop getSchema getRecords search database_id forms_dict rest with
      | .error e => .error e
      | .ok (forms', ws') => .ok (forms ++ forms', ws ++ ws')

/-- `materialize_form_boundaries` (scripts/boundaries.py, lines 93-140):
fetch the database tree once, build the label-keyed form dict, resolve
every form boundary, and warn when nothing materialized. -/
def materialize_form_boundaries
    (getTree : String → Except String (List TreeResource))
    (getSchema : String → Except String (List SchemaFieldDTO))
    (getRecords : String → Except String (List Record))
    (search : String → String → Bool) (database_id : String)
    (form_boundaries : List FormBoundary) :
    Except String (List FormSchema × List String) :=
  match getTree database_id with
  | .error e => .error e
  | .ok tree =>
    let forms_dict := buildDict (fun res => res.label)
      (tree.filter (fun res => decide (res.type = TreeResourceType.FORM))) []
    match formBoundaryLoop getSchema getRecords search database_id forms_dict
        form_boundaries with
    | .error e => .error e
    | .ok (forms, ws) =>
      let noFormW := if forms.length = 0 then
          ["No materialized form boundaries were found for database id " ++
            database_id ++ "."]
        else []
      .ok (forms, ws ++ noFormW)

/-- The result-checking loop of `materialize_boundary` (lines 71-83). -/
def checkDbResults (ident : String) :
    List (UserDatabase × Except String (List FormSchema × List String)) →
    Except String (List DatabaseSchema × List String)
  | [] => .ok ([], [])
  | (_db, .error e) :: _ =>
    .error ("Failed to materialize database boundary " ++ ident ++ ": " ++ e)
  | (db, .ok (forms, w)) :: rest =>
    match checkDbResults ident rest with
    | .error e => .error e
    | .ok (dbs, ws) =>
      .ok ({ databaseId := db.databaseId, label := db.label,
             description := db.description, forms := forms } :: dbs, w ++ ws)

/-- The per-database-boundary body of `materialize_boundary`: select the
matching databases, launch the form resolution for each, and check the
gathered results (warning when zero databases matched). -/
def processDbBoundary
    (getTree : String → Except String (List TreeResource))
    (getSchema : String → Except String (List SchemaFieldDTO))
    (getRecords : String → Except String (List Record))
    (search : String → String → Bool) (existing : List UserDatabase)
    (b : DatabaseBoundary) : Except String (List DatabaseSchema × List String) :=
  let matching := select_databases search b existing
  let zeroW := if matching.length = 0 then
      ["Database identifier " ++ b.identifier ++ " of type " ++
        b.identifier_type.render ++ " could not be materialized."]
    else []
  let results := matching.map (fun db =>
    (db, materialize_form_boundaries getTree getSchema getRecords search
      db.databaseId b.form_boundaries))
  match checkDbResults b.identifier results with
  | .error e => .error e
  | .ok (dbs, ws) => .ok (dbs, zeroW ++ ws)

/-- The database-boundary loop of `materialize_boundary`. -/
def dbBoundaryLoop
    (getTree : String → Except String (List TreeResource))
    (getSchema : String → Except String (List SchemaFieldDTO))
    (getRecords : String → Except String (List Record))
    (search : String → String → Bool) (existing : List UserDatabase) :
    List DatabaseBoundary → Except String (List DatabaseSchema × List String)
  | [] => .ok ([], [])
  | b :: rest =>
    match processDbBoundary getTree getSchema getRecords search existing b with
    | .error e => .error e
    | .ok (dbs, ws) =>
      match dbBoundaryLoop getTree getSchema getRecords search existing rest with
      | .error e => .error e
      | .ok (dbs', ws') => .ok (dbs ++ dbs', ws ++ ws')

/-- `materialize_boundary` (scripts/boundaries.py, lines 31-90): resolve
every database boundary against the fetched database list; the first
exception from any sub-task aborts the whole materialization (re-raised
wrapped with the boundary's identifier); otherwise the assembled
`SchemaSnapshot` and the collected warnings are returned. (The final
blob-store offload is outside the embedding: the snapshot stands for the
value the blob reference denotes.) -/
def materialize_boundary
    (getTree : String → Except String (List TreeResource))
    (getSchema : String → Except String (List SchemaFieldDTO))
    (getRecords : String → Except String (List Record))
    (search : String → String → Bool) (existing : List UserDatabase)
    (boundaries : List DatabaseBoundary) :
    Except String (SchemaSnapshot × List String) :=
  match dbBoundaryLoop getTree getSchema getRecords search existing boundaries with
  | .error e => .error e
  | .ok (dbs, ws) =>
    let noDbW := if dbs.length = 0 then
        ["No materialized database boundaries were found."]
      else []
    .ok (⟨dbs⟩, ws ++ noDbW)

/-! ## Lemmas about the Python dict model -/

theorem mem_dictInsert {α : Type} {k : String} {v : α} {d : Dict α} {x : String × α}
    (h : x ∈ dictInsert k v d) : x = (k, v) ∨ x ∈ d := by
  induction d with
  | nil => simpa [dictInsert] using h
  | cons kv rest ih =>
    obtain ⟨k', v'⟩ := kv
    by_cases hk : k' = k
    · simp only [dictInsert, if_pos hk, List.mem_cons] at h
      rcases h with h | h
      · exact Or.inl h
      · exact Or.inr (List.mem_cons_of_mem _ h)
    · simp only [dictInsert, if_neg hk, List.mem_cons] at h
      rcases h with h | h
      · subst h
        exact Or.inr (List.mem_cons_self _ _)
      · rcases ih h with h' | h'
        · exact Or.inl h'
        · exact Or.inr (List.mem_cons_of_mem _ h')

theorem dictGet_insert_self {α : Type} (k : String) (v : α) (d : Dict α) :
    dictGet k (dictInsert k v d) = some v := by
  induction d with
  | nil => simp [dictInsert, dictGet]
  | cons kv rest ih =>
    obtain ⟨k', v'⟩ := kv
    by_cases hk : k' = k
    · simp [dictInsert, hk, dictGet]
    · simp [dictInsert, hk, dictGet, ih]

theorem dictGet_insert_ne {α : Type} {k k' : String} (h : k' ≠ k) (v : α) (d : Dict α) :
    dictGet k' (dictInsert k v d) = dictGet k' d := by
  induction d with
  | nil => simp [dictInsert, dictGet, (Ne.symm h : k ≠ k')]
  | cons kv rest ih =>
    obtain ⟨k'', v''⟩ := kv
    by_cases hk : k'' = k
    · subst hk
      simp [dictInsert, dictGet, (Ne.symm h : k'' ≠ k')]
    · simp [dictInsert, hk, dictGet, ih]

theorem dictGet_mem {α : Type} {k : String} {v : α} {d : Dict α}
    (h : dictGet k d = some v) : (k, v) ∈ d := by
  induction d with
  | nil => simp [dictGet] at h
  | cons kv rest ih =>
    obtain ⟨k', v'⟩ := kv
    by_cases hk : k' = k
    · subst hk
      simp only [dictGet] at h
      simp_all
    · simp only [dictGet, if_neg hk] at h
      exact List.mem_cons_of_mem _ (ih h)

theorem mem_dictKeys_insert {α : Type} {k : String} {v : α} {d : Dict α} {a : String} :
    a ∈ dictKeys (dictInsert k v d) ↔ a = k ∨ a ∈ dictKeys d := by
  induction d with
  | nil => simp [dictInsert, dictKeys]
  | cons kv rest ih =>
    obtain ⟨k', v'⟩ := kv
    by_cases hk : k' = k
    · subst hk
      simp [dictInsert, dictKeys]
    · simp only [dictKeys, List.map_cons] at ih ⊢
      simp [dictInsert, hk, dictKeys] at ih ⊢
      tauto

theorem dictKeys_insert_nodup {α : Type} {k : String} {v : α} {d : Dict α}
    (h : (dictKeys d).Nodup) : (dictKeys (dictInsert k v d)).Nodup := by
  induction d with
  | nil => simp [dictInsert, dictKeys]
  | cons kv rest ih =>
    obtain ⟨k', v'⟩ := kv
    simp only [dictKeys, List.map_cons, List.nodup_cons] at h
    by_cases hk : k' = k
    · subst hk
      simpa [dictInsert, dictKeys] using h
    · simp only [dictInsert, if_neg hk, dictKeys, List.map_cons, List.nodup_cons]
      refine ⟨fun hmem => ?_, ih h.2⟩
      rcases (mem_dictKeys_insert).mp hmem with h' | h'
      · exact hk h'
      · exact h.1 h'

theorem dictGet_of_mem_nodup {α : Type} {k : String} {v : α} {d : Dict α}
    (hnd : (dictKeys d).Nodup) (h : (k, v) ∈ d) : dictGet k d = some v := by
  induction d with
  | nil => simp at h
  | cons kv rest ih =>
    obtain ⟨k', v'⟩ := kv
    simp only [dictKeys, List.map_cons, List.nodup_cons] at hnd
    rcases List.mem_cons.mp h with h' | h'
    · rw [Prod.mk.injEq] at h'
      simp [dictGet, h'.1, h'.2]
    · have hk : k' ≠ k := by
        rintro rfl
        exact hnd.1 (List.mem_map_of_mem Prod.fst h')
      simp [dictGet, hk, ih hnd.2 h']

theorem mem_dictValues_insert {α : Type} {k : String} {v : α} {d : Dict α} {x : α}
    (h : x ∈ dictValues (dictInsert k v d)) : x = v ∨ x ∈ dictValues d := by
  simp only [dictValues, List.mem_map] at h
  obtain ⟨kv, hkv, hx⟩ := h
  rcases mem_dictInsert hkv with h' | h'
  · subst h'
    exact Or.inl hx.symm
  · refine Or.inr ?_
    simp only [dictValues, List.mem_map]
    exact ⟨kv, h', hx⟩

theorem mem_dictValues_of_get {α : Type} {k : String} {v : α} {d : Dict α}
    (h : dictGet k d = some v) : v ∈ dictValues d := by
  simp only [dictValues, List.mem_map]
  exact ⟨(k, v), dictGet_mem h, rfl⟩

theorem dictValues_insert_fst_nodup {α β : Type} (f : α → β) {k : String} {v : α}
    {d : Dict α} (hnd : ((dictValues d).map f).Nodup)
    (hfresh : f v ∉ (dictValues d).map f) :
    ((dictValues (dictInsert k v d)).map f).Nodup := by
  induction d with
  | nil => simp [dictInsert, dictValues]
  | cons kv rest ih =>
    obtain ⟨k', v'⟩ := kv
    have hval : dictValues ((k', v') :: rest) = v' :: dictValues rest := rfl
    rw [hval] at hnd hfresh
    simp only [List.map_cons, List.nodup_cons] at hnd
    simp only [List.map_cons, List.mem_cons] at hfresh
    push_neg at hfresh
    by_cases hk : k' = k
    · subst hk
      have hins : dictInsert k' v ((k', v') :: rest) = (k', v) :: rest := by
        simp [dictInsert]
      rw [hins]
      have hval2 : dictValues ((k', v) :: rest) = v :: dictValues rest := rfl
      rw [hval2]
      simp only [List.map_cons, List.nodup_cons]
      exact ⟨hfresh.2, hnd.2⟩
    · simp only [dictInsert, if_neg hk]
      have hval2 : dictValues ((k', v') :: dictInsert k v rest) =
          v' :: dictValues (dictInsert k v rest) := rfl
    --
      rw [hval2]
      simp only [List.map_cons, List.nodup_cons]
      refine ⟨fun hmem => ?_, ih hnd.2 hfresh.2⟩
      simp only [List.mem_map] at hmem
      obtain ⟨x, hx, hfx⟩ := hmem
      rcases mem_dictValues_insert (x := x) hx with h' | h'
      · exact hfresh.1 (by rw [← hfx, h'])
      · exact hnd.1 (by
          rw [← hfx]
          exact List.mem_map_of_mem f h')

theorem dictGet_fst_ne {α β : Type} (f : α → β) {d : Dict α} {k₁ k₂ : String}
    {v₁ v₂ : α} (hnd : ((dictValues d).map f).Nodup) (hk : k₁ ≠ k₂)
    (h₁ : dictGet k₁ d = some v₁) (h₂ : dictGet k₂ d = some v₂) : f v₁ ≠ f v₂ := by
  induction d with
  | nil => simp [dictGet] at h₁
  | cons kv rest ih =>
    obtain ⟨k', v'⟩ := kv
    simp only [dictValues, List.map_cons, List.nodup_cons] at hnd
    by_cases e₁ : k' = k₁
    · subst e₁
      have h₁' : v' = v₁ := by simpa [dictGet] using h₁
      subst h₁'
      have h₂' : dictGet k₂ rest = some v₂ := by
        simpa [dictGet, (show k' ≠ k₂ from fun hh => hk hh)] using h₂
      intro hEq
      exact hnd.1 (hEq ▸ List.mem_map_of_mem f (mem_dictValues_of_get h₂'))
    · by_cases e₂ : k' = k₂
      · subst e₂
        have h₂' : v' = v₂ := by simpa [dictGet] using h₂
        subst h₂'
        have h₁' : dictGet k₁ rest = some v₁ := by simpa [dictGet, e₁] using h₁
        intro hEq
        exact hnd.1 (hEq ▸ List.mem_map_of_mem f (mem_dictValues_of_get h₁'))
      · have h₁' : dictGet k₁ rest = some v₁ := by simpa [dictGet, e₁] using h₁
        have h₂' : dictGet k₂ rest = some v₂ := by simpa [dictGet, e₂] using h₂
        exact ih hnd.2 h₁' h₂'

/-! ## Lemmas about the enumeration -/

theorem idxFrom_map_snd {α : Type} (n : Nat) (l : List α) :
    (idxFrom n l).map Prod.snd = l := by
  induction l generalizing n with
  | nil => simp [idxFrom]
  | cons x xs ih => simp [idxFrom, ih]

theorem idxFrom_fst_ge {α : Type} {n : Nat} {l : List α} {e : Nat × α}
    (h : e ∈ idxFrom n l) : n ≤ e.1 := by
  induction l generalizing n with
  | nil => simp [idxFrom] at h
  | cons x xs ih =>
    simp only [idxFrom, List.mem_cons] at h
    rcases h with h | h
    · simp [h]
    · exact Nat.le_of_succ_le (ih h)

theorem idxFrom_fst_nodup {α : Type} (n : Nat) (l : List α) :
    ((idxFrom n l).map Prod.fst).Nodup := by
  induction l generalizing n with
  | nil => simp [idxFrom]
  | cons x xs ih =>
    simp only [idxFrom, List.map_cons, List.nodup_cons]
    refine ⟨fun hmem => ?_, ih (n + 1)⟩
    simp only [List.mem_map] at hmem
    obtain ⟨e, he, hfe⟩ := hmem
    have := idxFrom_fst_ge he
    omega

theorem mem_idxFrom_snd {α : Type} {n : Nat} {l : List α} {e : Nat × α}
    (h : e ∈ idxFrom n l) : e.2 ∈ l := by
  induction l generalizing n with
  | nil => simp [idxFrom] at h
  | cons x xs ih =>
    simp only [idxFrom, List.mem_cons] at h
    rcases h with h | h
    · simp [h]
    · exact List.mem_cons_of_mem _ (ih h)

theorem idxFrom_fst_inj {α : Type} {n : Nat} {l : List α} {e₁ e₂ : Nat × α}
    (h₁ : e₁ ∈ idxFrom n l) (h₂ : e₂ ∈ idxFrom n l) (h : e₁.1 = e₂.1) : e₁ = e₂ := by
  induction l generalizing n with
  | nil => simp [idxFrom] at h₁
  | cons x xs ih =>
    simp only [idxFrom, List.mem_cons] at h₁ h₂
    rcases h₁ with h₁ | h₁ <;> rcases h₂ with h₂ | h₂
    · rw [h₁, h₂]
    · exfalso
      have := idxFrom_fst_ge h₂
      rw [h₁] at h
      omega
    · exfalso
      have := idxFrom_fst_ge h₁
      rw [h₂] at h
      omega
    · exact ih h₁ h₂

theorem indexed_nodup {α : Type} (l : List α) : (indexed l).Nodup :=
  List.Nodup.of_map Prod.fst (idxFrom_fst_nodup 0 l)

/-! ## Lemmas about `buildById` -/

theorem buildById_mem_values {T : Type} (idg : T → String) {L : List (Nat × T)}
    {d : Dict (Nat × T)} {v : Nat × T}
    (h : v ∈ dictValues (buildById idg L d)) : v ∈ dictValues d ∨ v ∈ L := by
  induction L generalizing d with
  | nil => exact Or.inl (by simpa [buildById] using h)
  | cons e rest ih =>
    simp only [buildById] at h
    rcases ih h with h' | h'
    · by_cases he : idg e.2 = ""
      · rw [if_pos he] at h'
        exact Or.inl h'
      · rw [if_neg he] at h'
        rcases mem_dictValues_insert h' with h'' | h''
        · exact Or.inr (by simp [h''])
        · exact Or.inl h''
    · exact Or.inr (List.mem_cons_of_mem _ h')

theorem buildById_keys_nodup {T : Type} (idg : T → String) (L : List (Nat × T))
    (d : Dict (Nat × T)) (h : (dictKeys d).Nodup) :
    (dictKeys (buildById idg L d)).Nodup := by
  induction L generalizing d with
  | nil => simpa [buildById] using h
  | cons e rest ih =>
    simp only [buildById]
    by_cases he : idg e.2 = ""
    · rw [if_pos he]
      exact ih _ h
    · rw [if_neg he]
      exact ih _ (dictKeys_insert_nodup h)

theorem buildById_values_fst_nodup {T : Type} (idg : T → String) (L : List (Nat × T))
    (d : Dict (Nat × T))
    (h : ((dictValues d).map Prod.fst ++ L.map Prod.fst).Nodup) :
    ((dictValues (buildById idg L d)).map Prod.fst).Nodup := by
  induction L generalizing d with
  | nil => simpa [buildById] using h
  | cons e rest ih =>
    rw [List.map_cons, List.nodup_append] at h
    obtain ⟨h1, h2, h3⟩ := h
    rw [List.nodup_cons] at h2
    simp only [buildById]
    by_cases he : idg e.2 = ""
    · rw [if_pos he]
      refine ih _ ?_
      rw [List.nodup_append]
      exact ⟨h1, h2.2, fun a ha hb => h3 ha (List.mem_cons_of_mem _ hb)⟩
    · rw [if_neg he]
      refine ih _ ?_
      rw [List.nodup_append]
      have hfresh : e.1 ∉ (dictValues d).map Prod.fst := fun hmem =>
        h3 hmem (List.mem_cons_self _ _)
      refine ⟨dictValues_insert_fst_nodup Prod.fst h1 hfresh, h2.2, ?_⟩
      intro a ha hb
      simp only [List.mem_map] at ha
      obtain ⟨x, hx, hax⟩ := ha
      rcases mem_dictValues_insert hx with h' | h'
      · subst h'
        exact h2.1 (hax ▸ hb)
      · exact h3 (hax ▸ List.mem_map_of_mem Prod.fst h') (List.mem_cons_of_mem _ hb)

theorem buildById_get_or {T : Type} (idg : T → String) {L : List (Nat × T)}
    {d : Dict (Nat × T)} {k : String} {v : Nat × T}
    (h : dictGet k (buildById idg L d) = some v) :
    (v ∈ L ∧ idg v.2 = k) ∨ dictGet k d = some v := by
  induction L generalizing d with
  | nil => exact Or.inr (by simpa [buildById] using h)
  | cons e rest ih =>
    simp only [buildById] at h
    rcases ih h with h' | h'
    · exact Or.inl ⟨List.mem_cons_of_mem _ h'.1, h'.2⟩
    · by_cases he : idg e.2 = ""
      · rw [if_pos he] at h'
        exact Or.inr h'
      · rw [if_neg he] at h'
        by_cases hk : idg e.2 = k
        · subst hk
          rw [dictGet_insert_self] at h'
          cases h'
          exact Or.inl ⟨List.mem_cons_self _ _, rfl⟩
        · rw [dictGet_insert_ne (fun hh => hk hh.symm)] at h'
          exact Or.inr h'

theorem buildById_get_isSome {T : Type} (idg : T → String) (L : List (Nat × T))
    (d : Dict (Nat × T)) (k : String) (h : (dictGet k d).isSome) :
    (dictGet k (buildById idg L d)).isSome := by
  induction L generalizing d with
  | nil => simpa [buildById] using h
  | cons e rest ih =>
    simp only [buildById]
    by_cases he : idg e.2 = ""
    · rw [if_pos he]
      exact ih _ h
    · rw [if_neg he]
      refine ih _ ?_
      by_cases hk : idg e.2 = k
      · subst hk
        rw [dictGet_insert_self]
        rfl
      · rw [dictGet_insert_ne (fun hh => hk hh.symm)]
        exact h

theorem buildById_get_exists {T : Type} (idg : T → String) {L : List (Nat × T)}
    (d : Dict (Nat × T)) {k : String} (hk : k ≠ "")
    (h : ∃ e ∈ L, idg e.2 = k) : (dictGet k (buildById idg L d)).isSome := by
  induction L generalizing d with
  | nil => simp at h
  | cons e rest ih =>
    obtain ⟨e', he', hke⟩ := h
    simp only [buildById]
    rcases List.mem_cons.mp he' with h' | h'
    · subst h'
      rw [if_neg (hke ▸ hk)]
      exact buildById_get_isSome idg rest _ k (by rw [hke, dictGet_insert_self]; rfl)
    · exact ih _ ⟨e', h', hke⟩

theorem buildById_pairs_spec {T : Type} (idg : T → String) {L : List (Nat × T)}
    {d : Dict (Nat × T)} {kv : String × (Nat × T)}
    (hd : ∀ kv' ∈ d, kv'.1 = idg kv'.2.2 ∧ kv'.1 ≠ "")
    (h : kv ∈ buildById idg L d) : kv.1 = idg kv.2.2 ∧ kv.1 ≠ "" := by
  induction L generalizing d with
  | nil => exact hd kv (by simpa [buildById] using h)
  | cons e rest ih =>
    simp only [buildById] at h
    by_cases he : idg e.2 = ""
    · rw [if_pos he] at h
      exact ih hd h
    · rw [if_neg he] at h
      refine ih ?_ h
      intro kv' hkv'
      rcases mem_dictInsert hkv' with h' | h'
      · subst h'
        exact ⟨rfl, he⟩
      · exact hd kv' h'

theorem dictInsert_fresh {α : Type} {k : String} (v : α) {d : Dict α}
    (h : k ∉ dictKeys d) : dictInsert k v d = d ++ [(k, v)] := by
  induction d with
  | nil => simp [dictInsert]
  | cons kv rest ih =>
    obtain ⟨k', v'⟩ := kv
    have h1 : ¬ k' = k := by
      intro hh
      exact h (by simp [dictKeys, hh])
    have h2 : k ∉ dictKeys rest := by
      intro hh
      refine h ?_
      simp only [dictKeys, List.map_cons, List.mem_cons]
      exact Or.inr (by simpa [dictKeys] using hh)
    simp [dictInsert, h1, ih h2]

theorem buildById_fresh_append {T : Type} (idg : T → String) (L : List (Nat × T))
    (d : Dict (Nat × T)) (hne : ∀ e ∈ L, idg e.2 ≠ "")
    (hnd : (dictKeys d ++ L.map (fun e => idg e.2)).Nodup) :
    buildById idg L d = d ++ L.map (fun e => (idg e.2, e)) := by
  induction L generalizing d with
  | nil => simp [buildById]
  | cons e rest ih =>
    rw [List.map_cons, List.nodup_append] at hnd
    obtain ⟨h1, h2, h3⟩ := hnd
    rw [List.nodup_cons] at h2
    simp only [buildById, if_neg (hne e (List.mem_cons_self _ _))]
    rw [dictInsert_fresh e (fun hmem => h3 hmem (List.mem_cons_self _ _))]
    rw [ih (d ++ [(idg e.2, e)]) (fun e' he' => hne e' (List.mem_cons_of_mem _ he')) ?_]
    · simp
    · rw [List.nodup_append]
      refine ⟨?_, h2.2, ?_⟩
      · simp only [dictKeys, List.map_append]
        rw [List.nodup_append]
        refine ⟨h1, by simp, ?_⟩
        intro a ha hb
        simp only [List.map_cons, List.map_nil, List.mem_singleton] at hb
        refine h3 (by simpa [dictKeys] using ha) ?_
        rw [hb]
        exact List.mem_cons_self _ _
      · intro a ha hb
        simp only [dictKeys, List.map_append, List.mem_append] at ha
        rcases ha with ha | ha
        · exact h3 (by simpa [dictKeys] using ha) (List.mem_cons_of_mem _ hb)
        · simp only [List.map_cons, List.map_nil, List.mem_singleton] at ha
          rw [ha] at hb
          exact h2.1 hb

/-! ## Lemmas about the fallback multimap -/

theorem fbFlat_insert_perm {α : Type} (k : String) (v : α) (fb : FbDict α) :
    (fbFlat (fbInsert k v fb)).Perm (v :: fbFlat fb) := by
  induction fb with
  | nil => simp [fbInsert, fbFlat]
  | cons kv rest ih =>
    obtain ⟨k', vs⟩ := kv
    by_cases hk : k' = k
    · subst hk
      have hins : fbInsert k' v ((k', vs) :: rest) = (k', vs ++ [v]) :: rest := by
        simp [fbInsert]
      rw [hins]
      have h1 : fbFlat ((k', vs ++ [v]) :: rest) =
          vs ++ ([v] ++ (rest.map Prod.snd).flatten) := by simp [fbFlat]
      have h2 : v :: fbFlat ((k', vs) :: rest) =
          [v] ++ (vs ++ (rest.map Prod.snd).flatten) := by simp [fbFlat]
      rw [h1, h2]
      exact List.perm_append_comm_assoc vs [v] ((rest.map Prod.snd).flatten)
    · have hins : fbInsert k v ((k', vs) :: rest) = (k', vs) :: fbInsert k v rest := by
        simp [fbInsert, hk]
      rw [hins]
      have h1 : fbFlat ((k', vs) :: fbInsert k v rest) =
          vs ++ fbFlat (fbInsert k v rest) := by simp [fbFlat]
      have h2 : fbFlat ((k', vs) :: rest) = vs ++ fbFlat rest := by simp [fbFlat]
      rw [h1, h2]
      refine (List.Perm.append_left vs ih).trans ?_
      exact (List.perm_middle : (vs ++ v :: fbFlat rest).Perm (v :: (vs ++ fbFlat rest)))

theorem buildFb_flat_perm {T : Type} (fbk : T → String) (L : List (Nat × T))
    (fb : FbDict (Nat × T)) :
    (fbFlat (buildFb fbk L fb)).Perm (fbFlat fb ++ L) := by
  induction L generalizing fb with
  | nil => simp [buildFb]
  | cons e rest ih =>
    simp only [buildFb]
    refine ((ih _).trans ((fbFlat_insert_perm _ _ _).append_right rest)).trans ?_
    have hm : (fbFlat fb ++ e :: rest).Perm (e :: (fbFlat fb ++ rest)) :=
      List.perm_middle
    simpa using hm.symm

theorem fbFlat_zero_perm {α : Type} (k : String) (fb : FbDict α) :
    (fbFlat fb).Perm (fbGet k fb ++ fbFlat (fbZero k fb)) := by
  induction fb with
  | nil => simp [fbFlat, fbGet, fbZero]
  | cons kv rest ih =>
    obtain ⟨k', vs⟩ := kv
    by_cases hk : k' = k
    · subst hk
      simp [fbFlat, fbGet, fbZero]
    · have hget : fbGet k ((k', vs) :: rest) = fbGet k rest := by simp [fbGet, hk]
      have hzero : fbZero k ((k', vs) :: rest) = (k', vs) :: fbZero k rest := by
        simp [fbZero, hk]
      rw [hget, hzero]
      have h1 : fbFlat ((k', vs) :: rest) = vs ++ fbFlat rest := by simp [fbFlat]
      have h2 : fbFlat ((k', vs) :: fbZero k rest) = vs ++ fbFlat (fbZero k rest) := by
        simp [fbFlat]
      rw [h1, h2]
      refine (List.Perm.append_left vs ih).trans ?_
      rw [← List.append_assoc, ← List.append_assoc]
      exact ((List.perm_append_comm :
        (vs ++ fbGet k rest).Perm (fbGet k rest ++ vs)).append_right _)

/-! ## Lemmas about phase 2 -/

theorem phase2_fst_sublist {T : Type} (fbk : T → String) (cs : List (Nat × T))
    (fb : FbDict (Nat × T)) :
    ((phase2 fbk cs fb).1.map Prod.fst).Sublist cs := by
  induction cs generalizing fb with
  | nil => simp [phase2]
  | cons e rest ih =>
    simp only [phase2]
    rcases hget : fbGet (fbk e.2) fb with _ | ⟨d, ds⟩
    · exact (ih fb).trans (List.sublist_cons_self _ _)
    · rcases ds with _ | ⟨d₂, ds'⟩
      · simpa using List.Sublist.cons₂ e (ih (fbZero (fbk e.2) fb))
      · exact (ih fb).trans (List.sublist_cons_self _ _)

theorem phase2_snd_mem {T : Type} (fbk : T → String) (cs : List (Nat × T))
    (fb : FbDict (Nat × T)) :
    ∀ pr ∈ (phase2 fbk cs fb).1, pr.2 ∈ fbFlat fb := by
  induction cs generalizing fb with
  | nil => simp [phase2]
  | cons e rest ih =>
    intro pr hpr
    simp only [phase2] at hpr
    rcases hget : fbGet (fbk e.2) fb with _ | ⟨d, ds⟩
    · rw [hget] at hpr
      exact ih fb pr hpr
    · rcases ds with _ | ⟨d₂, ds'⟩
      · rw [hget] at hpr
        simp only [List.mem_cons] at hpr
        have hflat := fbFlat_zero_perm (fbk e.2) fb
        rcases hpr with hpr | hpr
        · subst hpr
          exact hflat.mem_iff.mpr (by simp [hget])
        · have := ih (fbZero (fbk e.2) fb) pr hpr
          exact hflat.mem_iff.mpr (by simp [this])
      · rw [hget] at hpr
        exact ih fb pr hpr

theorem phase2_snd_fst_nodup {T : Type} (fbk : T → String) (cs : List (Nat × T))
    (fb : FbDict (Nat × T)) (hnd : ((fbFlat fb).map Prod.fst).Nodup) :
    ((phase2 fbk cs fb).1.map (fun pr => pr.2.1)).Nodup := by
  induction cs generalizing fb with
  | nil => simp [phase2]
  | cons e rest ih =>
    simp only [phase2]
    rcases hget : fbGet (fbk e.2) fb with _ | ⟨d, ds⟩
    · exact ih fb hnd
    · rcases ds with _ | ⟨d₂, ds'⟩
      · have hflat := fbFlat_zero_perm (fbk e.2) fb
        rw [hget] at hflat
        have hcons : (d.1 :: (fbFlat (fbZero (fbk e.2) fb)).map Prod.fst).Nodup := by
          have hpm := hflat.map Prod.fst
          have hB := (hpm.nodup_iff).mp hnd
          simpa using hB
        rw [List.nodup_cons] at hcons
        simp only [List.map_cons, List.nodup_cons]
        refine ⟨fun hmem => ?_, ih _ hcons.2⟩
        simp only [List.mem_map] at hmem
        obtain ⟨pr, hpr, hfpr⟩ := hmem
        have h2 := phase2_snd_mem fbk rest (fbZero (fbk e.2) fb) pr hpr
        exact hcons.1 (hfpr ▸ List.mem_map_of_mem Prod.fst h2)
      · exact ih fb hnd

/-! ## Lemmas about phase 1 -/

theorem filterMap_pair_fst_sublist {σ α β : Type} (l : List (σ × α)) (g : σ → Option β) :
    ((l.filterMap (fun kv => (g kv.1).map (fun b => (kv.2, b)))).map Prod.fst).Sublist
      (l.map Prod.snd) := by
  induction l with
  | nil => simp
  | cons kv rest ih =>
    obtain ⟨k, e⟩ := kv
    rcases hg : g k with _ | b
    · simp only [List.filterMap_cons, hg, Option.map_none', List.map_cons]
      exact ih.trans (List.sublist_cons_self _ _)
    · simp only [List.filterMap_cons, hg, Option.map_some', List.map_cons]
      exact List.Sublist.cons₂ e ih

theorem phase1_fst_nodup {T : Type} (current desired : List T) (idg : T → String) :
    ((phase1Pairs current desired idg).map (fun pr => pr.1.1)).Nodup := by
  have hsub := filterMap_pair_fst_sublist (buildById idg (indexed current) [])
    (fun k => dictGet k (buildById idg (indexed desired) []))
  have hvals : ((dictValues (buildById idg (indexed current) [])).map Prod.fst).Nodup :=
    buildById_values_fst_nodup idg _ [] (by simpa [dictValues] using idxFrom_fst_nodup 0 current)
  have hndsub : (((phase1Pairs current desired idg).map Prod.fst).map Prod.fst).Nodup := by
    refine List.Sublist.nodup ?_ hvals
    exact (hsub.map Prod.fst : _)
  simpa [List.map_map, Function.comp] using hndsub

theorem dict_lookup_pairs_snd_nodup {T : Type} (items des : Dict (Nat × T))
    (hk : (dictKeys items).Nodup) (hv : ((dictValues des).map Prod.fst).Nodup) :
    ((items.filterMap (fun kv => (dictGet kv.1 des).map (fun e => (kv.2, e)))).map
      (fun pr => pr.2.1)).Nodup := by
  induction items with
  | nil => simp
  | cons kv rest ih =>
    obtain ⟨k, ec⟩ := kv
    simp only [dictKeys, List.map_cons, List.nodup_cons] at hk
    rcases hg : dictGet k des with _ | ed
    · simp only [List.filterMap_cons, hg, Option.map_none']
      exact ih hk.2
    · simp only [List.filterMap_cons, hg, Option.map_some', List.map_cons, List.nodup_cons]
      refine ⟨fun hmem => ?_, ih hk.2⟩
      simp only [List.mem_map, List.mem_filterMap] at hmem
      obtain ⟨pr, ⟨kv', hkv', hsome⟩, hfpr⟩ := hmem
      rcases hg' : dictGet kv'.1 des with _ | e'
      · rw [hg'] at hsome
        simp at hsome
      · rw [hg'] at hsome
        simp only [Option.map_some', Option.some.injEq] at hsome
        have hkne : k ≠ kv'.1 := by
          intro hh
          exact hk.1 (hh ▸ List.mem_map_of_mem Prod.fst hkv')
        have := dictGet_fst_ne Prod.fst hv hkne hg hg'
        rw [← hsome] at hfpr
        exact this (by simpa using hfpr.symm)

theorem phase1_snd_nodup {T : Type} (current desired : List T) (idg : T → String) :
    ((phase1Pairs current desired idg).map (fun pr => pr.2.1)).Nodup := by
  refine dict_lookup_pairs_snd_nodup _ _ ?_ ?_
  · exact buildById_keys_nodup idg _ [] (by simp [dictKeys])
  · exact buildById_values_fst_nodup idg _ []
      (by simpa [dictValues] using idxFrom_fst_nodup 0 desired)

theorem phase1_mem {T : Type} {current desired : List T} {idg : T → String}
    {pr : (Nat × T) × (Nat × T)} (h : pr ∈ phase1Pairs current desired idg) :
    pr.1 ∈ indexed current ∧ pr.2 ∈ indexed desired ∧
      idg pr.1.2 ≠ "" ∧ idg pr.2.2 = idg pr.1.2 := by
  simp only [phase1Pairs, List.mem_filterMap] at h
  obtain ⟨kv, hkv, hsome⟩ := h
  rcases hg : dictGet kv.1 (buildById idg (indexed desired) []) with _ | ed
  · rw [hg] at hsome
    simp at hsome
  · rw [hg] at hsome
    simp only [Option.map_some', Option.some.injEq] at hsome
    have hspec := buildById_pairs_spec idg (d := []) (by simp) hkv
    have hspec' := buildById_pairs_spec idg (d := []) (by simp) (dictGet_mem hg)
    have hmem1 : kv.2 ∈ indexed current := by
      have : kv.2 ∈ dictValues (buildById idg (indexed current) []) :=
        List.mem_map_of_mem Prod.snd hkv
      rcases buildById_mem_values idg this with h' | h'
      · simp [dictValues] at h'
      · exact h'
    have hmem2 : ed ∈ indexed desired := by
      have : ed ∈ dictValues (buildById idg (indexed desired) []) :=
        mem_dictValues_of_get hg
      rcases buildById_mem_values idg this with h' | h'
      · simp [dictValues] at h'
      · exact h'
    rw [← hsome]
    refine ⟨hmem1, hmem2, ?_, ?_⟩
    · rw [← hspec.1]
      exact hspec.2
    · rw [← hspec.1, ← hspec'.1]

/-! ## The partition argument -/

theorem entries_partition_perm {T : Type} (l : List T) (E : List (Nat × T))
    (hmem : ∀ e ∈ E, e ∈ indexed l) (hnd : (E.map Prod.fst).Nodup) :
    (E.map Prod.snd ++
      ((indexed l).filter (fun e => decide (¬ e.1 ∈ E.map Prod.fst))).map Prod.snd).Perm
      l := by
  have base : (E ++ (indexed l).filter (fun e => decide (¬ e.1 ∈ E.map Prod.fst))).Perm
      (indexed l) := by
    have hEnd : E.Nodup := List.Nodup.of_map Prod.fst hnd
    have hFnd : ((indexed l).filter (fun e => decide (¬ e.1 ∈ E.map Prod.fst))).Nodup :=
      (indexed_nodup l).filter _
    have hLHS : (E ++ (indexed l).filter
        (fun e => decide (¬ e.1 ∈ E.map Prod.fst))).Nodup := by
      rw [List.nodup_append]
      refine ⟨hEnd, hFnd, ?_⟩
      intro a ha hb
      have hb' := List.of_mem_filter hb
      rw [decide_eq_true_iff] at hb'
      exact hb' (List.mem_map_of_mem Prod.fst ha)
    refine (List.perm_ext_iff_of_nodup hLHS (indexed_nodup l)).mpr ?_
    intro x
    constructor
    · intro hx
      rcases List.mem_append.mp hx with hx | hx
      · exact hmem x hx
      · exact List.mem_of_mem_filter hx
    · intro hx
      by_cases hc : x.1 ∈ E.map Prod.fst
      · simp only [List.mem_map] at hc
        obtain ⟨y, hy, hyx⟩ := hc
        have : y = x := idxFrom_fst_inj (hmem y hy) hx hyx
        exact List.mem_append.mpr (Or.inl (this ▸ hy))
      · refine List.mem_append.mpr (Or.inr ?_)
        exact List.mem_filter.mpr ⟨hx, by simpa using hc⟩
  have hm := base.map Prod.snd
  rw [List.map_append] at hm
  rw [show (indexed l).map Prod.snd = l from idxFrom_map_snd 0 l] at hm
  exact hm

theorem matchResources_cur_perm {T : Type} (current desired : List T)
    (id_getter fallback_key : T → String) :
    ((match_resources current desired id_getter fallback_key).matched.map Prod.fst ++
      (match_resources current desired id_getter fallback_key).deletes).Perm current := by
  simp only [match_resources]
  set p1 := phase1Pairs current desired id_getter with hp1def
  set uc := (indexed current).filter
    (fun e => decide (¬ e.1 ∈ p1.map (fun pr => pr.1.1))) with hucdef
  set ud := (indexed desired).filter
    (fun e => decide (¬ e.1 ∈ p1.map (fun pr => pr.2.1))) with huddef
  set pw := phase2 fallback_key uc (buildFb fallback_key ud []) with hpwdef
  set pairs := p1 ++ pw.1 with hpairsdef
  set E := pairs.map (fun pr => pr.1) with hEdef
  have hE1 : (pairs.map (fun pr => (pr.1.2, pr.2.2))).map Prod.fst = E.map Prod.snd := by
    simp [hEdef, List.map_map, Function.comp_def]
  have hE2 : pairs.map (fun pr => pr.1.1) = E.map Prod.fst := by
    simp [hEdef, List.map_map, Function.comp_def]
  rw [hE1]
  simp only [hE2]
  refine entries_partition_perm current E ?_ ?_
  · intro e he
    rw [hEdef] at he
    simp only [List.mem_map] at he
    obtain ⟨pr, hpr, hpre⟩ := he
    rw [hpairsdef] at hpr
    rcases List.mem_append.mp hpr with hpr | hpr
    · exact hpre ▸ (phase1_mem hpr).1
    · have h1 : pr.1 ∈ pw.1.map Prod.fst := List.mem_map_of_mem Prod.fst hpr
      have h2 : pr.1 ∈ uc := (phase2_fst_sublist fallback_key uc _).subset h1
      exact hpre ▸ List.mem_of_mem_filter h2
  · rw [← hE2, hpairsdef, List.map_append, List.nodup_append]
    refine ⟨phase1_fst_nodup current desired id_getter, ?_, ?_⟩
    · have hsub : (pw.1.map (fun pr => pr.1.1)).Sublist (uc.map Prod.fst) := by
        have h1 := (phase2_fst_sublist fallback_key uc
          (buildFb fallback_key ud [])).map Prod.fst
        simpa [List.map_map, Function.comp_def, hpwdef] using h1
      refine hsub.nodup ?_
      have hsub2 : (uc.map Prod.fst).Sublist ((indexed current).map Prod.fst) :=
        (List.filter_sublist _).map Prod.fst
      exact hsub2.nodup (idxFrom_fst_nodup 0 current)
    · intro a ha hb
      simp only [List.mem_map] at hb
      obtain ⟨pr, hpr, hpra⟩ := hb
      have h1 : pr.1 ∈ pw.1.map Prod.fst := List.mem_map_of_mem Prod.fst hpr
      have h2 : pr.1 ∈ uc := (phase2_fst_sublist fallback_key uc _).subset h1
      have h3 := List.of_mem_filter h2
      rw [decide_eq_true_iff] at h3
      exact h3 (hpra ▸ ha)

theorem matchResources_des_perm {T : Type} (current desired : List T)
    (id_getter fallback_key : T → String) :
    ((match_resources current desired id_getter fallback_key).matched.map Prod.snd ++
      (match_resources current desired id_getter fallback_key).creates).Perm desired := by
  simp only [match_resources]
  set p1 := phase1Pairs current desired id_getter with hp1def
  set uc := (indexed current).filter
    (fun e => decide (¬ e.1 ∈ p1.map (fun pr => pr.1.1))) with hucdef
  set ud := (indexed desired).filter
    (fun e => decide (¬ e.1 ∈ p1.map (fun pr => pr.2.1))) with huddef
  set pw := phase2 fallback_key uc (buildFb fallback_key ud []) with hpwdef
  set pairs := p1 ++ pw.1 with hpairsdef
  set E := pairs.map (fun pr => pr.2) with hEdef
  have hflat : (fbFlat (buildFb fallback_key ud [])).Perm ud := by
    have h := buildFb_flat_perm fallback_key ud []
    simpa [fbFlat] using h
  have hE1 : (pairs.map (fun pr => (pr.1.2, pr.2.2))).map Prod.snd = E.map Prod.snd := by
    simp [hEdef, List.map_map, Function.comp_def]
  have hE2 : pairs.map (fun pr => pr.2.1) = E.map Prod.fst := by
    simp [hEdef, List.map_map, Function.comp_def]
  rw [hE1]
  simp only [hE2]
  refine entries_partition_perm desired E ?_ ?_
  · intro e he
    rw [hEdef] at he
    simp only [List.mem_map] at he
    obtain ⟨pr, hpr, hpre⟩ := he
    rw [hpairsdef] at hpr
    rcases List.mem_append.mp hpr with hpr | hpr
    · exact hpre ▸ (phase1_mem hpr).2.1
    · have h1 := phase2_snd_mem fallback_key uc _ pr hpr
      have h2 : pr.2 ∈ ud := hflat.subset h1
      exact hpre ▸ List.mem_of_mem_filter h2
  · rw [← hE2, hpairsdef, List.map_append, List.nodup_append]
    refine ⟨phase1_snd_nodup current desired id_getter, ?_, ?_⟩
    · refine phase2_snd_fst_nodup fallback_key uc _ ?_
      have hudnd : (ud.map Prod.fst).Nodup := by
        have hsub2 : (ud.map Prod.fst).Sublist ((indexed desired).map Prod.fst) :=
          (List.filter_sublist _).map Prod.fst
        exact hsub2.nodup (idxFrom_fst_nodup 0 desired)
      exact ((hflat.map Prod.fst).nodup_iff).mpr hudnd
    · intro a ha hb
      simp only [List.mem_map] at hb
      obtain ⟨pr, hpr, hpra⟩ := hb
      have h1 := phase2_snd_mem fallback_key uc _ pr hpr
      have h2 : pr.2 ∈ ud := hflat.subset h1
      have h3 := List.of_mem_filter h2
      rw [decide_eq_true_iff] at h3
      exact h3 (hpra ▸ ha)

/-! ## Matching a list against itself -/

theorem filterMap_eq_map_of_forall {α β : Type} {l : List α} {f : α → Option β}
    {g : α → β} (h : ∀ x ∈ l, f x = some (g x)) : l.filterMap f = l.map g := by
  induction l with
  | nil => simp
  | cons x rest ih =>
    rw [List.filterMap_cons, h x (List.mem_cons_self _ _), List.map_cons,
      ih (fun y hy => h y (List.mem_cons_of_mem _ hy))]

theorem indexed_map_snd_fn {T β : Type} (l : List T) (f : T → β) :
    (indexed l).map (fun e => f e.2) = l.map f := by
  rw [show (fun e : Nat × T => f e.2) = (f ∘ Prod.snd) from rfl, ← List.map_map,
    show (indexed l).map Prod.snd = l from idxFrom_map_snd 0 l]

theorem match_resources_self {T : Type} (l : List T) (idg fbk : T → String)
    (hne : ∀ x ∈ l, idg x ≠ "") (hnd : (l.map idg).Nodup) :
    match_resources l l idg fbk =
      { matched := l.map (fun x => (x, x)), deletes := [], creates := [],
        warnings := [] } := by
  have hkeysmap : (indexed l).map (fun e => idg e.2) = l.map idg :=
    indexed_map_snd_fn l idg
  have hbuild : buildById idg (indexed l) [] =
      (indexed l).map (fun e => (idg e.2, e)) := by
    refine buildById_fresh_append idg _ [] (fun e he => hne e.2 (mem_idxFrom_snd he)) ?_
    simpa [dictKeys, hkeysmap] using hnd
  have hitemskeys : ((indexed l).map (fun e => (idg e.2, e))).map Prod.fst = l.map idg := by
    rw [List.map_map]
    exact indexed_map_snd_fn l idg
  have hp1 : phase1Pairs l l idg = (indexed l).map (fun e => (e, e)) := by
    rw [phase1Pairs, hbuild]
    have hget : ∀ kv ∈ (indexed l).map (fun e => (idg e.2, e)),
        dictGet kv.1 ((indexed l).map (fun e => (idg e.2, e))) = some kv.2 := by
      intro kv hkv
      refine dictGet_of_mem_nodup ?_ hkv
      rw [show dictKeys ((indexed l).map (fun e => (idg e.2, e))) =
        ((indexed l).map (fun e => (idg e.2, e))).map Prod.fst from rfl, hitemskeys]
      exact hnd
    rw [filterMap_eq_map_of_forall (g := fun kv => (kv.2, kv.2))
      (fun kv hkv => by rw [hget kv hkv]; rfl)]
    simp [List.map_map, Function.comp_def]
  simp only [match_resources, hp1]
  have huc : (indexed l).filter (fun e => decide
      (¬ e.1 ∈ ((indexed l).map (fun e => (e, e))).map
        (fun pr : (Nat × T) × (Nat × T) => pr.1.1))) = [] := by
    rw [List.filter_eq_nil_iff]
    intro e he
    have : e.1 ∈ ((indexed l).map (fun e => (e, e))).map
        (fun pr : (Nat × T) × (Nat × T) => pr.1.1) := by
      rw [List.map_map]
      exact List.mem_map_of_mem _ he
    simpa using this
  have hud : (indexed l).filter (fun e => decide
      (¬ e.1 ∈ ((indexed l).map (fun e => (e, e))).map
        (fun pr : (Nat × T) × (Nat × T) => pr.2.1))) = [] := by
    rw [List.filter_eq_nil_iff]
    intro e he
    have : e.1 ∈ ((indexed l).map (fun e => (e, e))).map
        (fun pr : (Nat × T) × (Nat × T) => pr.2.1) := by
      rw [List.map_map]
      exact List.mem_map_of_mem _ he
    simpa using this
  rw [huc, hud]
  simp only [phase2, List.append_nil, MatchResult.mk.injEq]
  refine ⟨?_, ?_, ?_, trivial⟩
  · rw [List.map_map]
    exact indexed_map_snd_fn l (fun x => (x, x))
  · rw [huc]
    rfl
  · rw [hud]
    rfl

/-! ## Diffing equal inputs produces no actions -/

theorem pyEq_refl (v : Value) : pyEq v v = true := by
  cases v <;> simp [pyEq]

theorem are_values_equal_refl (v : Value) : are_values_equal v v = true := by
  simp [are_values_equal, pyEq_refl]

theorem recordGet_self {r : Record} {k : String} {v : Value}
    (hnd : (r.map Prod.fst).Nodup) (h : (k, v) ∈ r) : recordGet r k = v := by
  rw [recordGet, lookupVal, dictGet_of_mem_nodup hnd h]

theorem recordPairUpdates_self (form_id : String) (r : Record)
    (hnd : (r.map Prod.fst).Nodup) : recordPairUpdates form_id r r = [] := by
  rw [recordPairUpdates, List.filterMap_eq_nil_iff]
  intro cv hcv
  rw [recordGet_self hnd (by simpa using hcv), are_values_equal_refl]
  rfl

theorem generate_record_changes_self (form_id : String) (records : List Record)
    (hne : ∀ r ∈ records, recordId r ≠ "")
    (hnd : (records.map recordId).Nodup)
    (hkeys : ∀ r ∈ records, (r.map Prod.fst).Nodup) :
    generate_record_changes form_id records records = ([], []) := by
  rw [generate_record_changes, match_resources_self records recordId _ hne hnd]
  simp only [List.map_nil, List.nil_append, List.map_map]
  rw [show ((fun pr : Record × Record => recordPairUpdates form_id pr.1 pr.2) ∘
      fun x => (x, x)) = (fun r : Record => recordPairUpdates form_id r r) from rfl]
  have h : records.map (fun r => recordPairUpdates form_id r r) =
      records.map (fun _ => ([] : List RecordAction)) := by
    apply List.map_congr_left
    intro r hr
    exact recordPairUpdates_self form_id r (hkeys r hr)
  rw [h]
  simp

theorem generate_field_changes_self (database_id form_id : String)
    (fields : List SchemaFieldDTO)
    (hne : ∀ f ∈ fields, fieldId f ≠ "")
    (hnd : (fields.map fieldId).Nodup) :
    generate_field_changes database_id form_id fields fields = ([], []) := by
  rw [generate_field_changes, match_resources_self fields fieldId _ hne hnd]
  simp only [List.map_nil, List.nil_append]
  rw [List.filterMap_eq_nil_iff.mpr ?_]
  intro pr hpr
  simp only [List.mem_map] at hpr
  obtain ⟨f, _, hf⟩ := hpr
  rw [← hf]
  simp

theorem foldl_eq_init {α β : Type} (f : α → β → α) (l : List β) (init : α)
    (h : ∀ acc, ∀ b ∈ l, f acc b = acc) : l.foldl f init = init := by
  induction l generalizing init with
  | nil => rfl
  | cons b rest ih =>
    rw [List.foldl_cons, h init b (List.mem_cons_self _ _)]
    exact ih init (fun acc b' hb' => h acc b' (List.mem_cons_of_mem _ hb'))

theorem generate_form_changes_self (database_id : String) (forms : List FormSchema)
    (hne : ∀ f ∈ forms, f.id ≠ "")
    (hnd : (forms.map (fun f => f.id)).Nodup)
    (hfields : ∀ f ∈ forms, (∀ fd ∈ f.fields, fieldId fd ≠ "") ∧
      (f.fields.map fieldId).Nodup)
    (hrecords : ∀ f ∈ forms, (∀ r ∈ f.records, recordId r ≠ "") ∧
      (f.records.map recordId).Nodup ∧ ∀ r ∈ f.records, (r.map Prod.fst).Nodup) :
    generate_form_changes database_id forms forms = ([], [], [], []) := by
  rw [generate_form_changes, match_resources_self forms (fun f => f.id) _ hne hnd]
  simp only [List.map_nil, List.nil_append, List.append_nil]
  rw [foldl_eq_init _ _ _ ?_]
  intro acc pr hpr
  simp only [List.mem_map] at hpr
  obtain ⟨f, hf, hfpr⟩ := hpr
  rw [← hfpr]
  obtain ⟨a1, a2, a3, a4⟩ := acc
  have h1 := generate_field_changes_self database_id f.id f.fields
    (hfields f hf).1 (hfields f hf).2
  have h2 := generate_record_changes_self f.id f.records
    (hrecords f hf).1 (hrecords f hf).2.1 (hrecords f hf).2.2
  simp [h1, h2]

/-! ## Identifier-phase precedence -/

theorem exists_mem_idxFrom {α : Type} {x : α} {l : List α} (h : x ∈ l) (n : Nat) :
    ∃ i, (i, x) ∈ idxFrom n l := by
  induction l generalizing n with
  | nil => simp at h
  | cons y rest ih =>
    rcases List.mem_cons.mp h with h' | h'
    · exact ⟨n, by simp [idxFrom, h']⟩
    · obtain ⟨i, hi⟩ := ih h' (n + 1)
      exact ⟨i, List.mem_cons_of_mem _ hi⟩

theorem buildById_get_of_unique {T : Type} (idg : T → String) (l : List T)
    {k : String} (hk : k ≠ "") {x : T} (hx : x ∈ l) (hid : idg x = k)
    (huniq : ∀ y ∈ l, idg y = k → y = x) :
    ∃ e, dictGet k (buildById idg (indexed l) []) = some e ∧ e.2 = x ∧
      e ∈ indexed l := by
  obtain ⟨i, hi⟩ := exists_mem_idxFrom hx 0
  have hex : (dictGet k (buildById idg (indexed l) [])).isSome :=
    buildById_get_exists idg [] hk ⟨(i, x), hi, hid⟩
  obtain ⟨e, he⟩ := Option.isSome_iff_exists.mp hex
  rcases buildById_get_or idg he with h' | h'
  · exact ⟨e, he, huniq e.2 (mem_idxFrom_snd h'.1) h'.2, h'.1⟩
  · simp [dictGet] at h'

/-! ## Lemmas about boundary materialization -/

theorem buildDict_fresh_append {α : Type} (key : α → String) (L : List α) (d : Dict α)
    (hnd : (dictKeys d ++ L.map key).Nodup) :
    buildDict key L d = d ++ L.map (fun x => (key x, x)) := by
  induction L generalizing d with
  | nil => simp [buildDict]
  | cons x rest ih =>
    rw [List.map_cons, List.nodup_append] at hnd
    obtain ⟨h1, h2, h3⟩ := hnd
    rw [List.nodup_cons] at h2
    simp only [buildDict]
    rw [dictInsert_fresh x (fun hmem => h3 hmem (List.mem_cons_self _ _))]
    rw [ih (d ++ [(key x, x)]) ?_]
    · simp
    · rw [List.nodup_append]
      refine ⟨?_, h2.2, ?_⟩
      · simp only [dictKeys, List.map_append]
        rw [List.nodup_append]
        refine ⟨h1, by simp, ?_⟩
        intro a ha hb
        simp only [List.map_cons, List.map_nil, List.mem_singleton] at hb
        refine h3 (by simpa [dictKeys] using ha) ?_
        rw [hb]
        exact List.mem_cons_self _ _
      · intro a ha hb
        simp only [dictKeys, List.map_append, List.mem_append] at ha
        rcases ha with ha | ha
        · exact h3 (by simpa [dictKeys] using ha) (List.mem_cons_of_mem _ hb)
        · simp only [List.map_cons, List.map_nil, List.mem_singleton] at ha
          rw [ha] at hb
          exact h2.1 hb

theorem map_pair_filter_snd {α : Type} (key : α → String) (p : String → Bool)
    (l : List α) :
    ((l.map (fun x => (key x, x))).filter (fun kv => p kv.1)).map Prod.snd =
      l.filter (fun x => p (key x)) := by
  induction l with
  | nil => simp
  | cons x rest ih =>
    by_cases hp : p (key x)
    · simp [List.filter_cons, hp, ih]
    · simp [List.filter_cons, hp, ih]

theorem checkDbResults_error_of_mem (ident : String)
    (rs : List (UserDatabase × Except String (List FormSchema × List String)))
    (h : ∃ p ∈ rs, ∃ e, p.2 = .error e) :
    ∃ p ∈ rs, ∃ e, p.2 = .error e ∧ checkDbResults ident rs =
      .error ("Failed to materialize database boundary " ++ ident ++ ": " ++ e) := by
  induction rs with
  | nil => simp at h
  | cons q rest ih =>
    obtain ⟨db, r⟩ := q
    rcases r with e | ok
    · exact ⟨(db, .error e), List.mem_cons_self _ _, e, rfl, by simp [checkDbResults]⟩
    · obtain ⟨p, hp, e, hpe⟩ := h
      rcases List.mem_cons.mp hp with h' | h'
      · rw [h'] at hpe
        simp at hpe
      · obtain ⟨p', hp', e', hpe', hres⟩ := ih ⟨p, h', e, hpe⟩
        refine ⟨p', List.mem_cons_of_mem _ hp', e', hpe', ?_⟩
        obtain ⟨forms, w⟩ := ok
        simp only [checkDbResults, hres]

theorem checkDbResults_error_inv {ident : String}
    {rs : List (UserDatabase × Except String (List FormSchema × List String))}
    {msg : String} (h : checkDbResults ident rs = .error msg) :
    ∃ p ∈ rs, ∃ e, p.2 = .error e ∧
      msg = "Failed to materialize database boundary " ++ ident ++ ": " ++ e := by
  revert h
  induction rs generalizing msg with
  | nil =>
    intro h
    simp [checkDbResults] at h
  | cons q rest ih =>
    intro h
    obtain ⟨db, r⟩ := q
    rcases r with e | ok
    · simp only [checkDbResults, Except.error.injEq] at h
      exact ⟨(db, .error e), List.mem_cons_self _ _, e, rfl, h.symm⟩
    · obtain ⟨forms, w⟩ := ok
      simp only [checkDbResults] at h
      rcases hrest : checkDbResults ident rest with e' | ok'
      · rw [hrest] at h
        simp only [Except.error.injEq] at h
        obtain ⟨p, hp, e'', hpe, hmsg⟩ := ih hrest
        refine ⟨p, List.mem_cons_of_mem _ hp, e'', hpe, ?_⟩
        rw [← h]
        exact hmsg
      · rw [hrest] at h
        obtain ⟨dbs, ws⟩ := ok'
        simp at h

theorem processDbBoundary_error_of
    (getTree : String → Except String (List TreeResource))
    (getSchema : String → Except String (List SchemaFieldDTO))
    (getRecords : String → Except String (List Record))
    (search : String → String → Bool) (existing : List UserDatabase)
    (b : DatabaseBoundary)
    (h : ∃ db ∈ select_databases search b existing, ∃ e,
      materialize_form_boundaries getTree getSchema getRecords search
        db.databaseId b.form_boundaries = .error e) :
    ∃ msg, processDbBoundary getTree getSchema getRecords search existing b =
      .error msg ∧ ∃ pre post, msg = pre ++ b.identifier ++ post := by
  obtain ⟨db, hdb, e, he⟩ := h
  have hmem : (db, materialize_form_boundaries getTree getSchema getRecords search
      db.databaseId b.form_boundaries) ∈
      (select_databases search b existing).map (fun db =>
        (db, materialize_form_boundaries getTree getSchema getRecords search
          db.databaseId b.form_boundaries)) := List.mem_map_of_mem _ hdb
  obtain ⟨p, hp, e', hpe, hres⟩ := checkDbResults_error_of_mem b.identifier _
    ⟨_, hmem, e, by simpa using he⟩
  refine ⟨"Failed to materialize database boundary " ++ b.identifier ++ ": " ++ e', ?_, ?_⟩
  · simp only [processDbBoundary, hres]
  · exact ⟨"Failed to materialize database boundary ", ": " ++ e', by simp [String.append_assoc]⟩

theorem processDbBoundary_error_inv
    {getTree : String → Except String (List TreeResource)}
    {getSchema : String → Except String (List SchemaFieldDTO)}
    {getRecords : String → Except String (List Record)}
    {search : String → String → Bool} {existing : List UserDatabase}
    {b : DatabaseBoundary} {msg : String}
    (h : processDbBoundary getTree getSchema getRecords search existing b =
      .error msg) :
    (∃ db ∈ select_databases search b existing, ∃ e,
      materialize_form_boundaries getTree getSchema getRecords search
        db.databaseId b.form_boundaries = .error e) ∧
      ∃ pre post, msg = pre ++ b.identifier ++ post := by
  simp only [processDbBoundary] at h
  rcases hres : checkDbResults b.identifier
      ((select_databases search b existing).map (fun db =>
        (db, materialize_form_boundaries getTree getSchema getRecords search
          db.databaseId b.form_boundaries))) with e | ok
  · rw [hres] at h
    simp only [Except.error.injEq] at h
    obtain ⟨p, hp, e', hpe, hmsg⟩ := checkDbResults_error_inv hres
    simp only [List.mem_map] at hp
    obtain ⟨db, hdb, hpdb⟩ := hp
    refine ⟨⟨db, hdb, e', ?_⟩, ?_⟩
    · rw [← hpdb] at hpe
      exact hpe
    · exact ⟨"Failed to materialize database boundary ", ": " ++ e', by
        rw [← h, hmsg]
        simp [String.append_assoc]⟩
  · rw [hres] at h
    obtain ⟨dbs, ws⟩ := ok
    simp at h

theorem dbBoundaryLoop_error
    (getTree : String → Except String (List TreeResource))
    (getSchema : String → Except String (List SchemaFieldDTO))
    (getRecords : String → Except String (List Record))
    (search : String → String → Bool) (existing : List UserDatabase)
    (bs : List DatabaseBoundary)
    (h : ∃ b ∈ bs, ∃ db ∈ select_databases search b existing, ∃ e,
      materialize_form_boundaries getTree getSchema getRecords search
        db.databaseId b.form_boundaries = .error e) :
    ∃ msg, dbBoundaryLoop getTree getSchema getRecords search existing bs =
      .error msg ∧
      ∃ b ∈ bs, (∃ db ∈ select_databases search b existing, ∃ e,
        materialize_form_boundaries getTree getSchema getRecords search
          db.databaseId b.form_boundaries = .error e) ∧
        ∃ pre post, msg = pre ++ b.identifier ++ post := by
  induction bs with
  | nil => simp at h
  | cons b rest ih =>
    rcases hpb : processDbBoundary getTree getSchema getRecords search existing b
        with e | ok
    · obtain ⟨hfail, hshape⟩ := processDbBoundary_error_inv hpb
      exact ⟨e, by simp only [dbBoundaryLoop, hpb],
        b, List.mem_cons_self _ _, hfail, hshape⟩
    · obtain ⟨b', hb', hw⟩ := h
      rcases List.mem_cons.mp hb' with h' | h'
      · exfalso
        obtain ⟨msg, hmsg, _⟩ := processDbBoundary_error_of getTree getSchema
          getRecords search existing b (h' ▸ hw)
        rw [hpb] at hmsg
        exact Except.noConfusion hmsg
      · obtain ⟨msg, hloop, b'', hb'', hfail, hshape⟩ := ih ⟨b', h', hw⟩
        obtain ⟨dbs, ws⟩ := ok
        refine ⟨msg, ?_, b'', List.mem_cons_of_mem _ hb'', hfail, hshape⟩
        simp only [dbBoundaryLoop, hpb, hloop]

theorem foldl_overwrite_last {α β : Type} (g : β → α) (init : α) (l : List β)
    (h : l ≠ []) : l.foldl (fun _ b => g b) init = g (l.getLast h) := by
  induction l generalizing init with
  | nil => exact absurd rfl h
  | cons b rest ih =>
    cases rest with
    | nil => simp [List.getLast]
    | cons b2 rest2 =>
      rw [List.foldl_cons, ih (g b) (List.cons_ne_nil b2 rest2)]
      rw [List.getLast_cons (List.cons_ne_nil b2 rest2)]

/-! ## Counting record updates per field code -/

theorem recordPairUpdates_countP_zero (form_id : String) (c : Record) (d : Record)
    (code : String) (h : code ∉ d.map Prod.fst) :
    ((recordPairUpdates form_id c d).countP
      (fun a => a.isUpdateFor code)) = 0 := by
  induction d with
  | nil => simp [recordPairUpdates]
  | cons kv rest ih =>
    obtain ⟨k, w⟩ := kv
    simp only [List.map_cons, List.mem_cons] at h
    push_neg at h
    rw [recordPairUpdates, List.filterMap_cons]
    by_cases hv : are_values_equal (recordGet c k) w
    · rw [if_pos hv]
      exact ih h.2
    · rw [if_neg hv]
      rw [List.countP_cons]
      have : RecordAction.isUpdateFor code
          (RecordAction.update ORIGIN form_id (recordIdOpt c) none k w (recordGet c k)) =
          false := by
        simp only [RecordAction.isUpdateFor, decide_eq_false_iff_not]
        exact fun hh => h.1 hh.symm
      rw [this]
      simpa [recordPairUpdates] using ih h.2

theorem recordPairUpdates_countP (form_id : String) (c d : Record)
    (code : String) (v : Value) (hmem : (code, v) ∈ d)
    (hnd : (d.map Prod.fst).Nodup) :
    ((recordPairUpdates form_id c d).countP (fun a => a.isUpdateFor code)) =
      (if are_values_equal (recordGet c code) v then 0 else 1) := by
  induction d with
  | nil => simp at hmem
  | cons kv rest ih =>
    obtain ⟨k, w⟩ := kv
    simp only [List.map_cons, List.nodup_cons] at hnd
    rw [recordPairUpdates, List.filterMap_cons]
    by_cases hk : k = code
    · subst hk
      have hvw : v = w := by
        rcases List.mem_cons.mp hmem with h' | h'
        · exact (Prod.mk.injEq _ _ _ _ ▸ h').2
        · exact absurd (List.mem_map_of_mem Prod.fst h') hnd.1
      subst hvw
      have hzero := recordPairUpdates_countP_zero form_id c rest k hnd.1
      by_cases hv : are_values_equal (recordGet c k) v
      · rw [if_pos hv, if_pos hv]
        simpa [recordPairUpdates] using hzero
      · rw [if_neg hv, if_neg hv, List.countP_cons]
        have hupd : RecordAction.isUpdateFor k
            (RecordAction.update ORIGIN form_id (recordIdOpt c) none k v
              (recordGet c k)) = true := by
          simp [RecordAction.isUpdateFor]
        rw [hupd]
        simpa [recordPairUpdates] using hzero
    · have hmem' : (code, v) ∈ rest := by
        rcases List.mem_cons.mp hmem with h' | h'
        · exact absurd ((Prod.mk.injEq _ _ _ _ ▸ h').1.symm) hk
        · exact h'
      have hrest := ih hmem' hnd.2
      by_cases hv : are_values_equal (recordGet c k) w
      · rw [if_pos hv]
        simpa [recordPairUpdates] using hrest
      · rw [if_neg hv, List.countP_cons]
        have hupd : RecordAction.isUpdateFor code
            (RecordAction.update ORIGIN form_id (recordIdOpt c) none k w
              (recordGet c k)) = false := by
          simp [RecordAction.isUpdateFor, hk]
        rw [hupd]
        simpa [recordPairUpdates] using hrest

theorem select_databases_label_eq_filter (search : String → String → Bool)
    (b : DatabaseBoundary) (existing : List UserDatabase)
    (ht : b.identifier_type = DatabaseIdentifierType.label)
    (hnd : (existing.map (fun db => db.label)).Nodup) :
    select_databases search b existing = existing.filter (fun db =>
      if b.identifier_is_regex then search b.identifier db.label
      else decide (db.label = b.identifier)) := by
  have hne : ¬ b.identifier_type = DatabaseIdentifierType.id := by
    rw [ht]
    intro hh
    cases hh
  rw [select_databases, if_neg hne]
  have hd : buildDict (fun db => db.label) existing [] =
      existing.map (fun db => (db.label, db)) := by
    have := buildDict_fresh_append (fun db => db.label) existing []
      (by simpa [dictKeys] using hnd)
    simpa using this
  rw [hd, match_identifier]
  by_cases hr : b.identifier_is_regex
  · rw [if_pos hr]
    rw [map_pair_filter_snd (fun db => db.label) (fun s => search b.identifier s) existing]
    apply List.filter_congr
    intro db _
    rw [if_pos hr]
  · rw [if_neg hr]
    rw [map_pair_filter_snd (fun db => db.label)
      (fun s => decide (s = b.identifier)) existing]
    apply List.filter_congr
    intro db _
    rw [if_neg hr]

/-! ## Claims -/

/-- Claim C1: for every pair of finite input lists and extractor
functions, the tuple returned by `match_resources` places every element
of `current` (by position) in exactly one of the first components of
`matched` and `deletes`, and every element of `desired` in exactly one
of the second components of `matched` and `creates` — stated as: the
concatenations are permutations of the inputs. -/
theorem claim_C1_matcher_partition {T : Type} (current desired : List T)
    (id_getter fallback_key : T → String) :
    ((match_resources current desired id_getter fallback_key).matched.map Prod.fst ++
      (match_resources current desired id_getter fallback_key).deletes).Perm current ∧
    ((match_resources current desired id_getter fallback_key).matched.map Prod.snd ++
      (match_resources current desired id_getter fallback_key).creates).Perm desired :=
  ⟨matchResources_cur_perm current desired id_getter fallback_key,
    matchResources_des_perm current desired id_getter fallback_key⟩

/-- Claim C2, counterexample: diffing a snapshot holding two databases
with empty ids and the same label against a deep copy of itself yields
four database actions (two deletes and two creates) and two ambiguity
warnings, not an empty changeset — the claim fails as universally
stated. -/
theorem claim_C2_counterexample :
    (generate_changeset
        ⟨[⟨"", "L", "", []⟩, ⟨"", "L", "", []⟩]⟩
        ⟨[⟨"", "L", "", []⟩, ⟨"", "L", "", []⟩]⟩).1.database_actions.length = 4 ∧
    (generate_changeset
        ⟨[⟨"", "L", "", []⟩, ⟨"", "L", "", []⟩]⟩
        ⟨[⟨"", "L", "", []⟩, ⟨"", "L", "", []⟩]⟩).2.length = 2 ∧
    ¬ (generate_changeset
        ⟨[⟨"", "L", "", []⟩, ⟨"", "L", "", []⟩]⟩
        ⟨[⟨"", "L", "", []⟩, ⟨"", "L", "", []⟩]⟩ =
      ({ record_actions := [], field_actions := [], form_actions := [],
         database_actions := [] }, [])) := by
  decide

/-- Claim C2, amended: for every `SchemaSnapshot` whose identifiers are
set and pairwise distinct at every level (database ids, form ids, field
ids, record `@id`s) and whose record field maps are dict-valid,
`generate_changeset` of the snapshot against a deep copy of itself (the
same value, in this pure embedding) returns an empty `Changeset` and no
warnings. -/
theorem claim_C2_idempotent_wellformed (s : SchemaSnapshot)
    (h : wellFormed s = true) :
    generate_changeset s s =
      ({ record_actions := [], field_actions := [], form_actions := [],
         database_actions := [] }, []) := by
  simp only [wellFormed, Bool.and_eq_true, decide_eq_true_eq, List.all_eq_true] at h
  obtain ⟨hdbnd, hdb⟩ := h
  rw [generate_changeset, match_resources_self s.databases (fun d => d.databaseId)
    (fun d => d.label) (fun db hm => (hdb db hm).1.1) hdbnd]
  simp only [List.map_nil, List.nil_append, List.append_nil]
  rw [foldl_eq_init _ _ _ ?_]
  intro acc pr hpr
  simp only [List.mem_map] at hpr
  obtain ⟨db, hdbm, hdbpr⟩ := hpr
  obtain ⟨⟨hid, hfnd⟩, hforms⟩ := hdb db hdbm
  have hform : generate_form_changes db.databaseId db.forms db.forms =
      ([], [], [], []) := by
    refine generate_form_changes_self db.databaseId db.forms
      (fun f hf => (hforms f hf).1.1.1.1) hfnd
      (fun f hf => ⟨(hforms f hf).1.1.2, (hforms f hf).1.1.1.2⟩)
      (fun f hf => ⟨fun r hr => ((hforms f hf).2 r hr).1,
        (hforms f hf).1.2, fun r hr => ((hforms f hf).2 r hr).2⟩)
  rw [← hdbpr]
  obtain ⟨a1, a2, a3, a4, a5⟩ := acc
  simp [hform]

/-- Claim C2, witness: a concrete well-formed snapshot on which the
amended idempotence theorem applies. -/
theorem claim_C2_witness :
    wellFormed ⟨[⟨"d1", "DB", "", [⟨"f1", "d1", "Costs",
        [⟨some "c1", some "AMT", "Amount", none, none, false, false, false,
          some false, "quantity", none⟩],
        [[("@id", Value.vStr "r1"), ("AMT", Value.vNum 10)]]⟩]⟩]⟩ = true ∧
    generate_changeset
      ⟨[⟨"d1", "DB", "", [⟨"f1", "d1", "Costs",
        [⟨some "c1", some "AMT", "Amount", none, none, false, false, false,
          some false, "quantity", none⟩],
        [[("@id", Value.vStr "r1"), ("AMT", Value.vNum 10)]]⟩]⟩]⟩
      ⟨[⟨"d1", "DB", "", [⟨"f1", "d1", "Costs",
        [⟨some "c1", some "AMT", "Amount", none, none, false, false, false,
          some false, "quantity", none⟩],
        [[("@id", Value.vStr "r1"), ("AMT", Value.vNum 10)]]⟩]⟩]⟩ =
      ({ record_actions := [], field_actions := [], form_actions := [],
         database_actions := [] }, []) :=
  ⟨by decide, claim_C2_idempotent_wellformed _ (by decide)⟩

/-- Claim C3: evaluation at the failing input. A current record with
`@id` "a" and a desired record with no `@id` at all are paired by the
matcher through the constant empty fallback key, and the differ then
emits an update that overwrites record "a" with the desired record's
data — fallback matching is not in fact disabled for records,
contradicting the code's own comment and the spec. -/
theorem claim_C3_record_fallback_pairs :
    (match_resources [[("@id", Value.vStr "a"), ("X", Value.vNum 1)]]
        [[("X", Value.vNum 2)]] recordId (fun _ => "")).matched =
      [([("@id", Value.vStr "a"), ("X", Value.vNum 1)], [("X", Value.vNum 2)])] ∧
    (match_resources [[("@id", Value.vStr "a"), ("X", Value.vNum 1)]]
        [[("X", Value.vNum 2)]] recordId (fun _ => "")).deletes = [] ∧
    (match_resources [[("@id", Value.vStr "a"), ("X", Value.vNum 1)]]
        [[("X", Value.vNum 2)]] recordId (fun _ => "")).creates = [] ∧
    generate_record_changes "f1" [[("@id", Value.vStr "a"), ("X", Value.vNum 1)]]
        [[("X", Value.vNum 2)]] =
      ([RecordAction.update "generate_changeset" "f1" (some "a") none "X"
        (Value.vNum 2) (Value.vNum 1)], []) := by
  decide

/-- Claim C4, counterexample: the source `Changeset` carries no warnings
list at all — two spec-side aggregates that differ only in their
warnings denote the same source `Changeset`, so `a + b` cannot
concatenate warnings of its operands. -/
theorem claim_C4_counterexample :
    ChangesetSpecAggregate.toChangeset ⟨[], [], [], [], ["w"]⟩ =
      ChangesetSpecAggregate.toChangeset ⟨[], [], [], [], []⟩ ∧
    (⟨[], [], [], [], ["w"]⟩ : ChangesetSpecAggregate) ≠ ⟨[], [], [], [], []⟩ := by
  exact ⟨rfl, by decide⟩

/-- Claim C4, amended: `a + b` concatenates the four action lists of the
two changesets in order, and `len c` is the total action count over the
four lists; a `Changeset` carries no warnings list (warnings travel
beside it), so addition involves no warnings. -/
theorem claim_C4_add_len (a b c : Changeset) :
    (a + b).record_actions = a.record_actions ++ b.record_actions ∧
    (a + b).field_actions = a.field_actions ++ b.field_actions ∧
    (a + b).form_actions = a.form_actions ++ b.form_actions ∧
    (a + b).database_actions = a.database_actions ++ b.database_actions ∧
    c.len = c.record_actions.length + c.field_actions.length +
      c.form_actions.length + c.database_actions.length :=
  ⟨rfl, rfl, rfl, rfl, rfl⟩

/-- Claim C5, counterexample: with two current elements sharing the
non-empty identifier "x", the current element at position 0 shares that
identifier with the desired element but is not paired with it (the
identifier index keeps only the last position), so the claim fails as
universally stated. -/
theorem claim_C5_counterexample :
    Elem.ident ⟨"x", "k1"⟩ = Elem.ident ⟨"x", "k3"⟩ ∧
    Elem.ident (⟨"x", "k1"⟩ : Elem) ≠ "" ∧
    ((⟨"x", "k1"⟩, ⟨"x", "k3"⟩) : Elem × Elem) ∉
      (match_resources [⟨"x", "k1"⟩, ⟨"x", "k2"⟩] [⟨"x", "k3"⟩]
        Elem.ident Elem.key).matched := by
  decide

/-- Claim C5, amended: whenever a current element and a desired element
share the same non-empty identifier and each is the unique carrier of
that identifier in its list, they appear together as a matched pair
regardless of their fallback keys; and no phase-1 pair involves an
element whose identifier is the empty string. -/
theorem claim_C5_id_precedence_unique {T : Type} (current desired : List T)
    (idg fbk : T → String) (c d : T) (hc : c ∈ current) (hd : d ∈ desired)
    (hne : idg c ≠ "") (heq : idg d = idg c)
    (hUc : ∀ y ∈ current, idg y = idg c → y = c)
    (hUd : ∀ y ∈ desired, idg y = idg c → y = d) :
    (c, d) ∈ (match_resources current desired idg fbk).matched ∧
    ∀ pr ∈ phase1Pairs current desired idg,
      idg pr.1.2 ≠ "" ∧ idg pr.2.2 ≠ "" := by
  constructor
  · obtain ⟨ec, hgetC, hec2, _⟩ := buildById_get_of_unique idg current hne hc rfl hUc
    obtain ⟨ed, hgetD, hed2, _⟩ := buildById_get_of_unique idg desired hne hd heq hUd
    have hp1 : (ec, ed) ∈ phase1Pairs current desired idg := by
      rw [phase1Pairs]
      refine List.mem_filterMap.mpr ⟨(idg c, ec), dictGet_mem hgetC, ?_⟩
      simp [hgetD]
    simp only [match_resources]
    refine List.mem_map.mpr ⟨(ec, ed), List.mem_append_left _ hp1, ?_⟩
    simp [hec2, hed2]
  · intro pr hpr
    have h := phase1_mem hpr
    refine ⟨h.2.2.1, ?_⟩
    rw [h.2.2.2]
    exact h.2.2.1

/-- Claim C5, witness: a concrete matched-by-identifier pair with
differing fallback keys and unique identifiers. -/
theorem claim_C5_witness :
    ((⟨"x", "k1"⟩, ⟨"x", "k2"⟩) : Elem × Elem) ∈
      (match_resources [⟨"x", "k1"⟩] [⟨"x", "k2"⟩] Elem.ident Elem.key).matched ∧
    ∀ pr ∈ phase1Pairs [(⟨"x", "k1"⟩ : Elem)] [(⟨"x", "k2"⟩ : Elem)] Elem.ident,
      Elem.ident pr.1.2 ≠ "" ∧ Elem.ident pr.2.2 ≠ "" :=
  claim_C5_id_precedence_unique [⟨"x", "k1"⟩] [⟨"x", "k2"⟩] Elem.ident Elem.key
    ⟨"x", "k1"⟩ ⟨"x", "k2"⟩ (by decide) (by decide) (by decide) (by decide)
    (by decide) (by decide)

/-- Claim C6: on current with one element of empty identifier and
fallback key "k" and desired with two such elements, the matcher returns
no matched pairs, exactly one warning naming the ambiguous key, the
current element among deletes and both desired elements among creates. -/
theorem claim_C6_ambiguous_fallback :
    match_resources [(⟨"", "k"⟩ : Elem)] [⟨"", "k"⟩, ⟨"", "k"⟩]
        Elem.ident Elem.key =
      { matched := [], deletes := [⟨"", "k"⟩], creates := [⟨"", "k"⟩, ⟨"", "k"⟩],
        warnings := ["Ambiguous fallback match for key \x27k\x27."] } := by
  decide

/-- Claim C7: for a matched record pair and a field code present in the
desired record (record keys being dict-unique), exactly one
Record-Update action is emitted for that code iff the desired and
current values are unequal by ordinary (Python) value equality and also
unequal after mapping null/absent to the empty string; otherwise none
is. -/
theorem claim_C7_record_value_equality (form_id : String) (c d : Record)
    (code : String) (v : Value) (hmem : (code, v) ∈ d)
    (hnd : (d.map Prod.fst).Nodup) :
    ((recordPairUpdates form_id c d).countP (fun a => a.isUpdateFor code)) =
      (if pyEq (recordGet c code) v = true ∨
          pyEq (normNull (recordGet c code)) (normNull v) = true then 0 else 1) := by
  rw [recordPairUpdates_countP form_id c d code v hmem hnd]
  by_cases h : are_values_equal (recordGet c code) v
  · rw [if_pos h, if_pos (Bool.or_eq_true_iff.mp (by simpa [are_values_equal] using h))]
  · rw [if_neg h, if_neg ?_]
    intro hcon
    refine h ?_
    rw [are_values_equal, Bool.or_eq_true_iff]
    exact hcon

/-- Claim C7, witness: `null` versus `""` yields no action, while the
number 0 versus the string "0" yields exactly one action. -/
theorem claim_C7_witness :
    ((recordPairUpdates "f" [("A", Value.vNull)] [("A", Value.vStr "")]).countP
      (fun a => a.isUpdateFor "A")) = 0 ∧
    ((recordPairUpdates "f" [("B", Value.vNum 0)] [("B", Value.vStr "0")]).countP
      (fun a => a.isUpdateFor "B")) = 1 := by
  constructor
  · rw [claim_C7_record_value_equality "f" [("A", Value.vNull)] [("A", Value.vStr "")]
      "A" (Value.vStr "") (by decide) (by decide)]
    decide
  · rw [claim_C7_record_value_equality "f" [("B", Value.vNum 0)] [("B", Value.vStr "0")]
      "B" (Value.vStr "0") (by decide) (by decide)]
    decide

/-- Claim C8: if any sub-task of a materialization (the per-database
form-boundary resolution, itself containing the field/record-level
fetches) fails, `materialize_boundary` returns an error whose message
embeds the identifier of a boundary whose resolution failed, and it
returns no (snapshot, warnings) value at all. -/
theorem claim_C8_materialize_atomic
    (getTree : String → Except String (List TreeResource))
    (getSchema : String → Except String (List SchemaFieldDTO))
    (getRecords : String → Except String (List Record))
    (search : String → String → Bool) (existing : List UserDatabase)
    (boundaries : List DatabaseBoundary)
    (h : ∃ b ∈ boundaries, ∃ db ∈ select_databases search b existing, ∃ e,
      materialize_form_boundaries getTree getSchema getRecords search
        db.databaseId b.form_boundaries = .error e) :
    ∃ msg, materialize_boundary getTree getSchema getRecords search existing
        boundaries = .error msg ∧
      (∀ v, materialize_boundary getTree getSchema getRecords search existing
        boundaries ≠ .ok v) ∧
      ∃ b ∈ boundaries, (∃ db ∈ select_databases search b existing, ∃ e,
        materialize_form_boundaries getTree getSchema getRecords search
          db.databaseId b.form_boundaries = .error e) ∧
        ∃ pre post, msg = pre ++ b.identifier ++ post := by
  obtain ⟨msg, hloop, hrest⟩ := dbBoundaryLoop_error getTree getSchema getRecords
    search existing boundaries h
  refine ⟨msg, ?_, ?_, hrest⟩
  · rw [materialize_boundary, hloop]
  · intro v hv
    rw [materialize_boundary, hloop] at hv
    exact Except.noConfusion hv

/-- Claim C8, witness: a single boundary selecting one database whose
tree fetch fails aborts the whole materialization. -/
theorem claim_C8_witness :
    ∃ msg, materialize_boundary (fun _ => .error "net down") (fun _ => .ok [])
        (fun _ => .ok []) (fun _ _ => false) [⟨"db1", "L", "D"⟩]
        [⟨"db1", DatabaseIdentifierType.id, false, []⟩] = .error msg ∧
      (∀ v, materialize_boundary (fun _ => .error "net down") (fun _ => .ok [])
        (fun _ => .ok []) (fun _ _ => false) [⟨"db1", "L", "D"⟩]
        [⟨"db1", DatabaseIdentifierType.id, false, []⟩] ≠ .ok v) ∧
      ∃ b ∈ [(⟨"db1", DatabaseIdentifierType.id, false, []⟩ : DatabaseBoundary)],
        (∃ db ∈ select_databases (fun _ _ => false) b [⟨"db1", "L", "D"⟩], ∃ e,
          materialize_form_boundaries (fun _ => .error "net down") (fun _ => .ok [])
            (fun _ => .ok []) (fun _ _ => false) db.databaseId b.form_boundaries =
              .error e) ∧
        ∃ pre post, msg = pre ++ b.identifier ++ post :=
  claim_C8_materialize_atomic (fun _ => .error "net down")
    (fun _ => .ok []) (fun _ => .ok []) (fun _ _ => false) [⟨"db1", "L", "D"⟩]
    [⟨"db1", DatabaseIdentifierType.id, false, []⟩]
    ⟨⟨"db1", DatabaseIdentifierType.id, false, []⟩, by decide,
      ⟨"db1", "L", "D"⟩, by decide, "net down", rfl⟩

/-- Claim C9, counterexample: with two fetched databases sharing the
label "L", the first satisfies the label rule but is not selected — the
label-keyed dict keeps only the last database per label, so the selected
set does not equal the set of databases whose label satisfies the
rule. -/
theorem claim_C9_counterexample :
    (⟨"d1", "L", ""⟩ : UserDatabase).label =
      (⟨"L", DatabaseIdentifierType.label, false, []⟩ : DatabaseBoundary).identifier ∧
    (⟨"d1", "L", ""⟩ : UserDatabase) ∈
      [(⟨"d1", "L", ""⟩ : UserDatabase), ⟨"d2", "L", ""⟩] ∧
    (⟨"d1", "L", ""⟩ : UserDatabase) ∉
      select_databases (fun _ _ => false)
        ⟨"L", DatabaseIdentifierType.label, false, []⟩
        [⟨"d1", "L", ""⟩, ⟨"d2", "L", ""⟩] := by
  decide

/-- Claim C9, amended: provided the labels of the fetched databases are
pairwise distinct, the databases selected for a label-typed boundary are
exactly those of the fetched list whose label satisfies the rule — label
equality when `is_regex` is false, a search-oracle match when true. -/
theorem claim_C9_label_selection_distinct (search : String → String → Bool)
    (b : DatabaseBoundary) (existing : List UserDatabase)
    (ht : b.identifier_type = DatabaseIdentifierType.label)
    (hnd : (existing.map (fun db => db.label)).Nodup) :
    select_databases search b existing = existing.filter (fun db =>
      if b.identifier_is_regex then search b.identifier db.label
      else decide (db.label = b.identifier)) :=
  select_databases_label_eq_filter search b existing ht hnd

/-- Claim C9, witness: exact label selection over a two-database list
with distinct labels. -/
theorem claim_C9_witness :
    select_databases (fun _ _ => false)
        ⟨"A", DatabaseIdentifierType.label, false, []⟩
        [⟨"d1", "A", ""⟩, ⟨"d2", "B", ""⟩] =
      List.filter (fun db =>
        if (⟨"A", DatabaseIdentifierType.label, false, []⟩ :
            DatabaseBoundary).identifier_is_regex
        then (fun _ _ => false) (⟨"A", DatabaseIdentifierType.label, false, []⟩ :
            DatabaseBoundary).identifier db.label
        else decide (db.label = (⟨"A", DatabaseIdentifierType.label, false, []⟩ :
            DatabaseBoundary).identifier))
        [⟨"d1", "A", ""⟩, ⟨"d2", "B", ""⟩] :=
  claim_C9_label_selection_distinct (fun _ _ => false)
    ⟨"A", DatabaseIdentifierType.label, false, []⟩
    [⟨"d1", "A", ""⟩, ⟨"d2", "B", ""⟩] rfl (by decide)

/-- Claim C10: when a form boundary carries more than one record
boundary, each iteration of the record-boundary loop overwrites the
previous selection, so the materialized record list equals the selection
of the last record boundary alone. -/
theorem claim_C10_record_boundary_overwrite (records : List Record)
    (rbs : List RecordBoundary) (h : rbs ≠ []) :
    materializeRecordLoop records rbs = selectRecords records (rbs.getLast h) :=
  foldl_overwrite_last (selectRecords records) [] rbs h

/-- Claim C10, witness: an all-records boundary followed by an
exact-empty boundary materializes the last boundary's (empty)
selection. -/
theorem claim_C10_witness :
    materializeRecordLoop [[("@id", Value.vStr "r1")]]
        [RecordBoundary.allRecords, RecordBoundary.exact []] =
      selectRecords [[("@id", Value.vStr "r1")]] (RecordBoundary.exact []) := by
  rw [claim_C10_record_boundary_overwrite [[("@id", Value.vStr "r1")]]
    [RecordBoundary.allRecords, RecordBoundary.exact []] (by simp)]
  rfl

end AIRunner
